import Mathlib

set_option autoImplicit false

/-!
Shallow embedding of the NUMA-aware CPU topology hint generator
(`pkg/agent/qrm-plugins/cpu/dynamicpolicy/policy_hint_handlers.go`).

The hint handlers themselves are translated directly from the Go source.
Helper operations that live in other packages of the repository
(`state`, `machine`, `util`) are modelled from the specification; each such
definition carries a doc comment starting with `Modelled from the spec:`.
Go machine integers are modelled as `Nat`/`Int` (CPU counts and quantities
are non-negative and far below 2^63, so overflow never occurs; where the Go
code compares against `math.MaxInt` we keep the sentinel explicitly).
-/

deriving instance DecidableEq for Except

namespace KatalystHints

/-- A CPU set: a finite set of logical CPU identifiers (spec §3). -/
abbrev CPUSet := Finset ℕ

/-- Modelled from the spec: CPU topology (§3) — total CPU count, NUMA node
count, socket count and the NUMA → socket assignment.  The repository's
`machine.CPUTopology` is outside `src/`. -/
structure CPUTopology where
  numCPUs : ℕ
  numNUMANodes : ℕ
  numSockets : ℕ
  numaSocket : List (ℕ × ℕ)
deriving DecidableEq

/-- Per-NUMA state (spec §3): allocated and default CPU sets plus the
annotation predicates recorded for containers currently on this NUMA
(whether a binding workload is hosted, and which anti-affinity groups). -/
structure NUMANodeState where
  allocatedCPUSet : CPUSet
  defaultCPUSet : CPUSet
  hostsBinding : Bool
  hostedGroups : List String
deriving DecidableEq

/-- Machine state: assoc list NUMA-id → NUMA state (Go `state.NUMANodeMap`). -/
abbrev NUMANodeMap := List (ℕ × NUMANodeState)

/-- Map lookup; `none` models Go's nil-pointer result for a missing key. -/
def NUMANodeMap.lookup (ms : NUMANodeMap) (i : ℕ) : Option NUMANodeState :=
  (ms.find? (fun e => e.1 = i)).map (fun e => e.2)

/-- Modelled from the spec (§4.7): `available_cpu_set(reserved)` =
`default_cpu_set \ reserved \ allocated_cpu_set`  (repository
`state.NUMANodeState.GetAvailableCPUSet`, outside `src/`). -/
def NUMANodeState.getAvailableCPUSet (st : NUMANodeState) (reserved : CPUSet) : CPUSet :=
  (st.defaultCPUSet \ reserved) \ st.allocatedCPUSet

/-- Modelled from the spec (§4.7): `available_cpu_quantity(reserved)` is the
integer size of the available CPU set. -/
def NUMANodeState.getAvailableCPUQuantity (st : NUMANodeState) (reserved : CPUSet) : ℕ :=
  (st.getAvailableCPUSet reserved).card

/-- Modelled from the spec (§4.7): `GetFilteredDefaultCPUSet(nil, nil)` with
no filters is the default CPU set itself. -/
def NUMANodeState.getFilteredDefaultCPUSet (st : NUMANodeState) : CPUSet :=
  st.defaultCPUSet

/-- Available CPU set of NUMA `i`; a missing NUMA yields the empty set
(the Go code only evaluates this for NUMAs present in the map). -/
def availableSetAt (ms : NUMANodeMap) (reserved : CPUSet) (i : ℕ) : CPUSet :=
  match ms.lookup i with
  | some st => st.getAvailableCPUSet reserved
  | none => ∅

/-- Available CPU quantity of NUMA `i` (`GetAvailableCPUQuantity`). -/
def availableQuantityAt (ms : NUMANodeMap) (reserved : CPUSet) (i : ℕ) : ℕ :=
  (availableSetAt ms reserved i).card

/-- Allocatable CPU quantity of NUMA `i`:
`GetFilteredDefaultCPUSet(nil, nil).Difference(reserved).Size()`. -/
def allocatableQuantityAt (ms : NUMANodeMap) (reserved : CPUSet) (i : ℕ) : ℕ :=
  match ms.lookup i with
  | some st => (st.getFilteredDefaultCPUSet \ reserved).card
  | none => 0

/-- The request's annotation bag (Go `map[string]string`). -/
abbrev Ann := List (String × String)

/-- Annotation lookup. -/
def annLookup (a : Ann) (k : String) : Option String :=
  (a.find? (fun e => e.1 = k)).map (fun e => e.2)

/-- Modelled from the spec (§6 annotations table): NUMA binding is indicated
by the numa-binding enhancement key having value `enable`
(repository `qosutil.AnnotationsIndicateNUMABinding`, outside `src/`). -/
def annIndicateNUMABinding (a : Ann) : Bool :=
  annLookup a "memory-enhancement/numa-binding" == some "enable"

/-- Modelled from the spec (§6 annotations table): NUMA exclusive is indicated
by the numa-exclusive enhancement key having value `enable`. -/
def annIndicateNUMAExclusive (a : Ann) : Bool :=
  annLookup a "memory-enhancement/numa-exclusive" == some "enable"

/-- Modelled from the spec (§6 annotations table): the request's
anti-affinity group, when present. -/
def annAntiAffinityGroup (a : Ann) : Option String :=
  annLookup a "memory-enhancement/anti-affinity-group"

/-- Modelled from the spec (§3): `numas_per_socket()` fails if NUMA nodes are
not evenly distributed over sockets (`machine.CPUTopology.NUMAsPerSocket`). -/
def CPUTopology.numasPerSocket (t : CPUTopology) : Except String ℕ :=
  if t.numSockets = 0 ∨ t.numNUMANodes % t.numSockets ≠ 0 then
    .error "NUMA nodes are not evenly distributed over sockets"
  else
    .ok (t.numNUMANodes / t.numSockets)

/-- Socket of a NUMA node, per the topology's assignment. -/
def CPUTopology.socketOf (t : CPUTopology) (i : ℕ) : Option ℕ :=
  (t.numaSocket.find? (fun e => e.1 = i)).map (fun e => e.2)

/-- Sockets of a list of NUMA nodes; `none` when some NUMA is unknown. -/
def socketsOf (t : CPUTopology) : List ℕ → Option (List ℕ)
  | [] => some []
  | i :: rest =>
    match t.socketOf i with
    | none => none
    | some s => (socketsOf t rest).map (fun ss => s :: ss)

/-- Modelled from the spec (§4.5 step 6): whether a set of NUMA nodes spans
more than one socket; fails for a NUMA unknown to the topology
(`machine.CheckNUMACrossSockets`, outside `src/`). -/
def checkNUMACrossSockets (nodes : List ℕ) (t : CPUTopology) : Except String Bool :=
  match socketsOf t nodes with
  | none => .error "unknown NUMA node"
  | some sockets => .ok (decide (1 < sockets.dedup.length))

/-- Modelled from the spec (§4.5): `K = minimum NUMAs needed to host R`,
the ceiling of the request over per-NUMA CPU capacity
(`util.GetNUMANodesCountToFitCPUReq`, outside `src/`). -/
def getNUMANodesCountToFitCPUReq (reqInt : ℕ) (t : CPUTopology) : Except String ℕ :=
  if t.numNUMANodes = 0 then .error "zero NUMA nodes"
  else
    let cpusPerNUMA := t.numCPUs / t.numNUMANodes
    if cpusPerNUMA = 0 then .error "zero CPUs per NUMA"
    else .ok ((reqInt + cpusPerNUMA - 1) / cpusPerNUMA)

/-- A topology hint (spec §3): a set of NUMA ids plus a preferred flag. -/
structure TopologyHint where
  nodes : List ℕ
  preferred : Bool
deriving DecidableEq

/-- The value bound to the CPU resource key of a hint map: `none` models a
nil `ListOfTopologyHints` ("no NUMA preference"), `some l` a list `l`. -/
abbrev CPUHints := Option (List TopologyHint)

/-- Insert into a sorted list, keeping ascending order. -/
def insertSorted (i : ℕ) : List ℕ → List ℕ
  | [] => [i]
  | j :: t => if i ≤ j then i :: j :: t else j :: insertSorted i t

/-- Ascending sort (Go `sort.Ints`). -/
def sortAsc (l : List ℕ) : List ℕ :=
  l.foldr insertSorted []

/-- All `k`-element sublists of `l`, keeping relative order, in the
lexicographic order used by the topology-manager bitmask iterator. -/
def combinations : ℕ → List ℕ → List (List ℕ)
  | 0, _ => [[]]
  | _ + 1, [] => []
  | k + 1, x :: xs => (combinations k xs).map (fun c => x :: c) ++ combinations (k + 1) xs

/-- Masks of sizes `1..n` in ascending size order. -/
def iterateBitMasksAux (bits : List ℕ) : ℕ → List (List ℕ)
  | 0 => []
  | k + 1 => iterateBitMasksAux bits k ++ combinations (k + 1) bits

/-- The topology-manager bitmask enumeration (spec §9): every non-empty
subset of `bits`, ascending by popcount then by lexicographic bit pattern.
Each mask is represented by its sorted list of bits (`mask.GetBits`). -/
def iterateBitMasks (bits : List ℕ) : List (List ℕ) :=
  iterateBitMasksAux bits bits.length

/-- The per-node loop body of `calculateHints`' mask callback: walks the mask
bits accumulating the union of available CPUs; `none` models the early
`return` (skip) on a nil NUMA state or, under numa-exclusive, on a NUMA with
a non-empty allocated set. -/
def gatherAvailableInMask (ms : NUMANodeMap) (reserved : CPUSet) (exclusive : Bool) :
    List ℕ → Option CPUSet
  | [] => some ∅
  | i :: rest =>
    match ms.lookup i with
    | none => none
    | some st =>
      if exclusive && decide (0 < st.allocatedCPUSet.card) then none
      else (gatherAvailableInMask ms reserved exclusive rest).map
        (fun u => st.getAvailableCPUSet reserved ∪ u)

/-- The body of the `IterateBitMasks` callback in `calculateHints`
(policy_hint_handlers.go lines 186-235): returns the emitted hint for this
mask, or `none` when the mask is skipped. -/
def calculateHintsMaskStep (reqInt : ℕ) (topo : CPUTopology) (reserved : CPUSet)
    (ms : NUMANodeMap) (ann : Ann) (minNUMAsCountNeeded numaPerSocket : ℕ)
    (mask : List ℕ) : Option TopologyHint :=
  let maskCount := mask.length
  if maskCount < minNUMAsCountNeeded then none
  else if annIndicateNUMABinding ann && !annIndicateNUMAExclusive ann
      && decide (1 < maskCount) then none
  else
    match gatherAvailableInMask ms reserved (annIndicateNUMAExclusive ann) mask with
    | none => none
    | some allAvailableCPUsInMask =>
      if allAvailableCPUsInMask.card < reqInt then none
      else
        match checkNUMACrossSockets mask topo with
        | .error _ => none
        | .ok crossSockets =>
          if maskCount ≤ numaPerSocket && crossSockets then none
          else some ⟨mask, decide (maskCount = minNUMAsCountNeeded)⟩

/-- Translation of `calculateHints` (policy_hint_handlers.go lines 151-238): the
dedicated-cores-with-NUMA-binding hint calculator.  The appends performed by
the bitmask callback are expressed as a `filterMap` over the enumeration,
which produces the same list in the same order. -/
def calculateHints (reqInt : ℕ) (topo : CPUTopology) (reserved : CPUSet)
    (ms : NUMANodeMap) (ann : Ann) : Except String CPUHints :=
  let numaNodes := sortAsc (ms.map Prod.fst).dedup
  match getNUMANodesCountToFitCPUReq reqInt topo with
  | .error e => .error ("GetNUMANodesCountToFitCPUReq failed with error: " ++ e)
  | .ok minNUMAsCountNeeded =>
    if annIndicateNUMABinding ann && !annIndicateNUMAExclusive ann
        && decide (1 < minNUMAsCountNeeded) then
      .error "NUMA not exclusive binding container has request larger than 1 NUMA"
    else
      match topo.numasPerSocket with
      | .error e => .error ("NUMAsPerSocket failed with error: " ++ e)
      | .ok numaPerSocket =>
        .ok (some ((iterateBitMasks numaNodes).filterMap
          (calculateHintsMaskStep reqInt topo reserved ms ann minNUMAsCountNeeded numaPerSocket)))

/-- Policy constant (repository `cpuconsts`, values per spec §6). -/
def policyPacking : String := "packing"

/-- Policy constant (repository `cpuconsts`, values per spec §6). -/
def policySpreading : String := "spreading"

/-- Policy constant (repository `cpuconsts`, values per spec §6). -/
def policyDynamicPacking : String := "dynamic_packing"

/-- Go's `math.MaxInt` on a 64-bit platform, the initial `minLeft`. -/
def goMaxInt : ℤ := 9223372036854775807

/-- The mutable locals of `populateHintsByPreferPolicy`: the hint list under
the CPU key, the absolute indexes to be marked preferred, and the running
`maxLeft`/`minLeft`. -/
structure PopulateAcc where
  hints : List TopologyHint
  preferIndexes : List ℕ
  maxLeft : ℤ
  minLeft : ℤ
deriving DecidableEq

/-- One iteration of the loop in `populateHintsByPreferPolicy`
(policy_hint_handlers.go lines 300-332). -/
def populateStep (reserved : CPUSet) (reqInt : ℕ) (preferPolicy : String)
    (ms : NUMANodeMap) (acc : PopulateAcc) (nodeID : ℕ) : PopulateAcc :=
  let availableCPUQuantity := availableQuantityAt ms reserved nodeID
  if availableCPUQuantity < reqInt then acc
  else
    let hints' := acc.hints ++ [⟨[nodeID], false⟩]
    let curLeft : ℤ := (availableCPUQuantity : ℤ) - (reqInt : ℤ)
    let idx := hints'.length - 1
    if preferPolicy == policyPacking then
      if curLeft < acc.minLeft then ⟨hints', [idx], acc.maxLeft, curLeft⟩
      else if curLeft = acc.minLeft then
        ⟨hints', acc.preferIndexes ++ [idx], acc.maxLeft, acc.minLeft⟩
      else ⟨hints', acc.preferIndexes, acc.maxLeft, acc.minLeft⟩
    else
      if acc.maxLeft < curLeft then ⟨hints', [idx], curLeft, acc.minLeft⟩
      else if curLeft = acc.maxLeft then
        ⟨hints', acc.preferIndexes ++ [idx], acc.maxLeft, acc.minLeft⟩
      else ⟨hints', acc.preferIndexes, acc.maxLeft, acc.minLeft⟩

/-- The loop of `populateHintsByPreferPolicy` over the candidate NUMAs. -/
def populateLoop (reserved : CPUSet) (reqInt : ℕ) (preferPolicy : String)
    (ms : NUMANodeMap) : List ℕ → PopulateAcc → PopulateAcc
  | [], acc => acc
  | nodeID :: rest, acc =>
    populateLoop reserved reqInt preferPolicy ms rest
      (populateStep reserved reqInt preferPolicy ms acc nodeID)

/-- The final marking pass of `populateHintsByPreferPolicy` (lines 334-338):
set `Preferred` at every index in `preferIndexes`; `n` is the absolute index
of the head of `hs`.  (The Go guard `len(preferIndexes) >= 0` is vacuously
true, so the pass always runs.) -/
def markPreferredAux (idxs : List ℕ) : ℕ → List TopologyHint → List TopologyHint
  | _, [] => []
  | n, h :: t =>
    (if n ∈ idxs then ⟨h.nodes, true⟩ else h) :: markPreferredAux idxs (n + 1) t

/-- Translation of `populateHintsByPreferPolicy` (policy_hint_handlers.go lines 295-339):
appends a single-NUMA hint for every candidate with enough available CPUs and
marks as preferred the appended hints minimizing (packing) or maximizing
(any other policy string, i.e. spreading) the leftover quantity. -/
def populateHintsByPreferPolicy (reserved : CPUSet) (reqInt : ℕ)
    (preferPolicy : String) (ms : NUMANodeMap) (numaNodes : List ℕ)
    (hints0 : List TopologyHint) : List TopologyHint :=
  let acc := populateLoop reserved reqInt preferPolicy ms numaNodes
    ⟨hints0, [], -1, goMaxInt⟩
  markPreferredAux acc.preferIndexes 0 acc.hints

/-- Translation of `filterNUMANodesByHintPreferLowThreshold` (lines 341-369): split the
candidates into those whose available/allocatable fraction reaches the
threshold and the rest; candidates with zero allocatable CPUs are dropped
from both lists.  The Go float64 fraction is modelled over `ℚ`. -/
def filterNUMANodesByHintPreferLowThreshold (reserved : CPUSet) (threshold : ℚ)
    (ms : NUMANodeMap) : List ℕ → List ℕ × List ℕ
  | [] => ([], [])
  | nodeID :: rest =>
    let (fs, fos) := filterNUMANodesByHintPreferLowThreshold reserved threshold ms rest
    let availableCPUQuantity := availableQuantityAt ms reserved nodeID
    let allocatableCPUQuantity := allocatableQuantityAt ms reserved nodeID
    if allocatableCPUQuantity = 0 then (fs, fos)
    else if threshold ≤ mkRat (availableCPUQuantity : ℤ) allocatableCPUQuantity then
      (nodeID :: fs, fos)
    else (fs, nodeID :: fos)

/-- Translation of `filterNUMANodesByNonBindingSharedRequestedQuantity` (lines 371-397): the
anti-starvation pre-filter.  A candidate in the non-binding NUMA set is
admitted only when taking it leaves enough capacity for the
shared-without-binding workloads; other candidates are admitted as-is. -/
def filterNUMANodesByNonBindingSharedRequestedQuantity
    (reserved : CPUSet) (nonBindingSharedRequestedQuantity : ℕ)
    (nonBindingNUMAsCPUQuantity : ℕ) (nonBindingNUMAs : Finset ℕ)
    (ms : NUMANodeMap) : List ℕ → List ℕ
  | [] => []
  | nodeID :: rest =>
    let tail := filterNUMANodesByNonBindingSharedRequestedQuantity reserved
      nonBindingSharedRequestedQuantity nonBindingNUMAsCPUQuantity nonBindingNUMAs ms rest
    if nodeID ∈ nonBindingNUMAs then
      let allocatableCPUQuantity := allocatableQuantityAt ms reserved nodeID
      if (nonBindingSharedRequestedQuantity : ℤ) ≤
          (nonBindingNUMAsCPUQuantity : ℤ) - (allocatableCPUQuantity : ℤ) then
        nodeID :: tail
      else tail
    else nodeID :: tail

/-- Modelled from the spec (§4.7): `filtered_numa_set` with the "hosts no
binding workload" predicate (`GetFilteredNUMASet(state.CheckNUMABinding)`). -/
def NUMANodeMap.getFilteredNUMASet (ms : NUMANodeMap) : Finset ℕ :=
  ((ms.filter (fun e => !e.2.hostsBinding)).map Prod.fst).toFinset

/-- Modelled from the spec (§4.7): union of per-NUMA availability over the
NUMAs hosting no binding workload
(`GetFilteredAvailableCPUSet(reserved, nil, state.CheckNUMABinding)`). -/
def NUMANodeMap.getFilteredAvailableCPUSet (ms : NUMANodeMap) (reserved : CPUSet) : CPUSet :=
  ms.foldr (fun e acc =>
    if e.2.hostsBinding then acc else e.2.getAvailableCPUSet reserved ∪ acc) ∅

/-- Modelled from the spec (§4.6): anti-affinity candidate pre-filter — the
NUMAs not already hosting the request's anti-affinity group
(`GetFilteredNUMASetWithAnnotations` with
`state.CheckNUMABindingSharedCoresAntiAffinity`), followed by `ToSliceInt`,
which yields the ids in ascending order. -/
def NUMANodeMap.getFilteredNUMASetWithAnn (ms : NUMANodeMap) (ann : Ann) : List ℕ :=
  match annAntiAffinityGroup ann with
  | none => sortAsc (ms.map Prod.fst).dedup
  | some g =>
    sortAsc ((ms.filter (fun e => !(e.2.hostedGroups.contains g))).map Prod.fst).dedup

/-- A pod-entry record (spec §3): QoS flavor, binding mode, original request
quantity and the granted CPU set. -/
structure AllocationInfo where
  qosFlavor : String
  numaBinding : Bool
  requestQuantity : ℕ
  allocatedSet : CPUSet
deriving DecidableEq

/-- Container-name → allocation record. -/
abbrev ContainerEntries := List (String × AllocationInfo)

/-- The pod-entry registry: pod-uid → container entries (spec §3). -/
abbrev PodEntries := List (String × ContainerEntries)

/-- Registry lookup (`state.GetAllocationInfo`). -/
def PodEntries.getAllocationInfo (pe : PodEntries) (uid cname : String) :
    Option AllocationInfo :=
  match pe.find? (fun e => e.1 = uid) with
  | none => none
  | some (_, ces) => ((ces.find? (fun e => e.1 = cname)).map (fun e => e.2))

/-- The registry invalidation of §4.3: `delete(podEntries[uid], cname)`
followed by `delete(podEntries, uid)` when the pod has no remaining
entries. -/
def PodEntries.deleteEntry (pe : PodEntries) (uid cname : String) : PodEntries :=
  pe.foldr (fun e acc =>
    if e.1 = uid then
      let ces' := e.2.filter (fun c => ¬(c.1 = cname))
      if ces'.isEmpty then acc else (e.1, ces') :: acc
    else e :: acc) []

/-- Modelled from the spec (§4.6): `Q_unbound`, the summed CPU requests over
pod entries classified as shared QoS without NUMA binding
(`state.GetNonBindingSharedRequestedQuantityFromPodEntries`). -/
def getNonBindingSharedRequestedQuantity (pe : PodEntries) : ℕ :=
  pe.foldr (fun e acc =>
    e.2.foldr (fun c acc2 =>
      if c.2.qosFlavor == "shared" && !c.2.numaBinding then
        acc2 + c.2.requestQuantity
      else acc2) acc) 0

/-- Translation of `populateNotPreferredHintsByAvailableNUMANodes` (lines 450-458): append a
non-preferred single-NUMA hint for every given NUMA, with no capacity
check. -/
def populateNotPreferredHints (numaNodes : List ℕ) (hints : List TopologyHint) :
    List TopologyHint :=
  hints ++ numaNodes.map (fun nodeID => ⟨[nodeID], false⟩)

/-- Translation of `calculateHintsForNUMABindingSharedCores` (lines 399-448): the
shared-cores-with-NUMA-binding hint calculator. -/
def calculateHintsForNUMABindingSharedCores (reqInt : ℕ) (topo : CPUTopology)
    (reserved : CPUSet) (preferPolicy : String) (threshold : ℚ)
    (podEntries : PodEntries) (ms : NUMANodeMap) (ann : Ann) :
    Except String CPUHints :=
  let nonBindingNUMAsCPUQuantity := (ms.getFilteredAvailableCPUSet reserved).card
  let nonBindingNUMAs := ms.getFilteredNUMASet
  let nonBindingSharedRequestedQuantity := getNonBindingSharedRequestedQuantity podEntries
  let numaNodes := filterNUMANodesByNonBindingSharedRequestedQuantity reserved
    nonBindingSharedRequestedQuantity nonBindingNUMAsCPUQuantity nonBindingNUMAs ms
    (ms.getFilteredNUMASetWithAnn ann)
  match getNUMANodesCountToFitCPUReq reqInt topo with
  | .error e => .error ("GetNUMANodesCountToFitCPUReq failed with error: " ++ e)
  | .ok minNUMAsCountNeeded =>
    if 1 < minNUMAsCountNeeded then
      .error "numa_binding shared_cores container has request larger than 1 NUMA"
    else if preferPolicy == policyPacking || preferPolicy == policySpreading then
      .ok (some (populateHintsByPreferPolicy reserved reqInt preferPolicy ms numaNodes []))
    else if preferPolicy == policyDynamicPacking then
      let split := filterNUMANodesByHintPreferLowThreshold reserved threshold ms numaNodes
      if 0 < split.1.length then
        .ok (some (populateNotPreferredHints split.2
          (populateHintsByPreferPolicy reserved reqInt policyPacking ms split.1 [])))
      else
        .ok (some (populateHintsByPreferPolicy reserved reqInt policySpreading ms numaNodes []))
    else
      .ok (some (populateHintsByPreferPolicy reserved reqInt policySpreading ms numaNodes []))

/-- A resource request as the hint handlers see it (spec §3, §6).
`quantity` carries the result of `util.GetQuantityFromResourceReq` (outside
`src/`; per spec §7 it fails on a missing or non-integer CPU quantity). -/
structure ResourceRequest where
  podUid : String
  podName : String
  containerName : String
  isSidecar : Bool
  annot : Ann
  quantity : Except String ℕ

/-- The reply envelope, restricted to what the claims observe: the value
bound to the CPU resource key of `resource_hints` (spec §4.8, §6). -/
structure Response where
  cpuHints : CPUHints
deriving DecidableEq

/-- Modelled from the spec (§4.8): the response packer only marshals the hint
map into the reply envelope (`util.PackResourceHintsResponse`). -/
def packResourceHintsResponse (hintsMap : CPUHints) : Response :=
  ⟨hintsMap⟩

/-- The configuration and external collaborators a `DynamicPolicy` handler
closes over.  `regenerateHints` (repository `cpuutil.RegenerateHints`) and
`generateMachineStateFromPodEntries` are outside `src/` and therefore kept
as parameters; per spec §4.3/§9 regeneration returns `none` as the
invalidation sentinel and a hint list otherwise.  `getHintsFromExtraStateFile`
models the sideband hint file of §4.4 keyed by pod name and restricted to the
eligible NUMA set; `none` covers both absence and a (recovered) read error. -/
structure PolicyEnv where
  topo : CPUTopology
  reserved : CPUSet
  preferPolicy : String
  threshold : ℚ
  regenerateHints : AllocationInfo → ℕ → Option (List TopologyHint)
  generateMachineStateFromPodEntries : CPUTopology → PodEntries → Except String NUMANodeMap
  getHintsFromExtraStateFile : String → Finset ℕ → Option (List TopologyHint)

/-- Translation of `dedicatedCoresWithNUMABindingHintHandler` (policy_hint_handlers.go lines
77-142), as a pure function of the state snapshot.  The returned `PodEntries`
is the snapshot as the handler leaves it, making the §4.3 registry
invalidation (the handler's only write) observable. -/
def dedicatedCoresWithNUMABindingHintHandler (env : PolicyEnv)
    (machineState0 : NUMANodeMap) (podEntries0 : PodEntries)
    (req : ResourceRequest) : Except String (Response × PodEntries) :=
  if req.isSidecar then
    .ok (packResourceHintsResponse none, podEntries0)
  else
    match req.quantity with
    | .error e => .error ("getReqQuantityFromResourceReq failed with error: " ++ e)
    | .ok reqInt =>
      let afterRegen : Except String (Option (List TopologyHint) × NUMANodeMap × PodEntries) :=
        match podEntries0.getAllocationInfo req.podUid req.containerName with
        | none => .ok (none, machineState0, podEntries0)
        | some allocationInfo =>
          match env.regenerateHints allocationInfo reqInt with
          | some h => .ok (some h, machineState0, podEntries0)
          | none =>
            let podEntries1 := podEntries0.deleteEntry req.podUid req.containerName
            match env.generateMachineStateFromPodEntries env.topo podEntries1 with
            | .error e =>
              .error ("GenerateMachineStateFromPodEntries failed with error: " ++ e)
            | .ok machineState1 => .ok (none, machineState1, podEntries1)
      match afterRegen with
      | .error e => .error e
      | .ok (hints1, machineState, podEntries) =>
        let hints2 :=
          match hints1 with
          | some h => some h
          | none =>
            env.getHintsFromExtraStateFile req.podName machineState.getFilteredNUMASet
        match hints2 with
        | some h => .ok (packResourceHintsResponse (some h), podEntries)
        | none =>
          match calculateHints reqInt env.topo env.reserved machineState req.annot with
          | .error e => .error ("calculateHints failed with error: " ++ e)
          | .ok c => .ok (packResourceHintsResponse c, podEntries)

/-- Translation of `sharedCoresWithNUMABindingHintHandler` (policy_hint_handlers.go lines
240-293), as a pure function of the state snapshot; no sideband file is
consulted on this path. -/
def sharedCoresWithNUMABindingHintHandler (env : PolicyEnv)
    (machineState0 : NUMANodeMap) (podEntries0 : PodEntries)
    (req : ResourceRequest) : Except String (Response × PodEntries) :=
  if req.isSidecar then
    .ok (packResourceHintsResponse none, podEntries0)
  else
    match req.quantity with
    | .error e => .error ("getReqQuantityFromResourceReq failed with error: " ++ e)
    | .ok reqInt =>
      let afterRegen : Except String (Option (List TopologyHint) × NUMANodeMap × PodEntries) :=
        match podEntries0.getAllocationInfo req.podUid req.containerName with
        | none => .ok (none, machineState0, podEntries0)
        | some allocationInfo =>
          match env.regenerateHints allocationInfo reqInt with
          | some h => .ok (some h, machineState0, podEntries0)
          | none =>
            let podEntries1 := podEntries0.deleteEntry req.podUid req.containerName
            match env.generateMachineStateFromPodEntries env.topo podEntries1 with
            | .error e =>
              .error ("GenerateMachineStateFromPodEntries failed with error: " ++ e)
            | .ok machineState1 => .ok (none, machineState1, podEntries1)
      match afterRegen with
      | .error e => .error e
      | .ok (hints1, machineState, podEntries) =>
        match hints1 with
        | some h => .ok (packResourceHintsResponse (some h), podEntries)
        | none =>
          match calculateHintsForNUMABindingSharedCores reqInt env.topo env.reserved
              env.preferPolicy env.threshold podEntries machineState req.annot with
          | .error e =>
            .error ("calculateHintsForNUMABindingSharedCores failed with error: " ++ e)
          | .ok c => .ok (packResourceHintsResponse c, podEntries)

/-- Translation of `sharedCoresHintHandler` (policy_hint_handlers.go lines 39-54): without
the numa-binding annotation the handler short-circuits to "no NUMA
preference"; otherwise it delegates to the binding path. -/
def sharedCoresHintHandler (env : PolicyEnv) (machineState0 : NUMANodeMap)
    (podEntries0 : PodEntries) (req : ResourceRequest) :
    Except String (Response × PodEntries) :=
  if !annIndicateNUMABinding req.annot then
    .ok (packResourceHintsResponse none, podEntries0)
  else
    sharedCoresWithNUMABindingHintHandler env machineState0 podEntries0 req

/-- Union of available CPUs over a hint's NUMA nodes, following the words of
spec §8 invariant 2: the set whose size every emitted hint must cover. -/
def specAvailableUnion (ms : NUMANodeMap) (reserved : CPUSet) (nodes : List ℕ) : CPUSet :=
  nodes.foldr (fun i acc => availableSetAt ms reserved i ∪ acc) ∅

/-- The candidates `populateHintsByPreferPolicy` actually emits: those whose
available quantity covers the request (spec §4.6 capacity filter). -/
def emittedNodes (ms : NUMANodeMap) (reserved : CPUSet) (reqInt : ℕ)
    (numaNodes : List ℕ) : List ℕ :=
  numaNodes.filter (fun i => decide (reqInt ≤ availableQuantityAt ms reserved i))

/-- Leftover quantity `available(i) − R` of a candidate NUMA. -/
def leftOf (ms : NUMANodeMap) (reserved : CPUSet) (reqInt : ℕ) (i : ℕ) : ℤ :=
  (availableQuantityAt ms reserved i : ℤ) - (reqInt : ℤ)

/-- Fold of `min` seeded with the Go `minLeft` sentinel. -/
def minLeftFold (xs : List ℤ) : ℤ :=
  xs.foldr min goMaxInt

/-- Fold of `max` seeded with the Go `maxLeft` sentinel. -/
def maxLeftFold (xs : List ℤ) : ℤ :=
  xs.foldr max (-1)

/-- Indexes (absolute, starting at `n`) of the elements of a list whose
`f`-value equals `t` — the reference reading of `preferIndexes`. -/
def argIdxsAux (f : ℕ → ℤ) (t : ℤ) : ℕ → List ℕ → List ℕ
  | _, [] => []
  | n, i :: rest =>
    if f i = t then n :: argIdxsAux f t (n + 1) rest
    else argIdxsAux f t (n + 1) rest

/-- Concrete two-NUMA, one-socket topology with four CPUs per NUMA. -/
def topoTwo : CPUTopology :=
  ⟨8, 2, 1, [(0, 0), (1, 0)]⟩

/-- Concrete two-NUMA, one-socket topology with ten CPUs per NUMA. -/
def topoTen : CPUTopology :=
  ⟨20, 2, 1, [(0, 0), (1, 0)]⟩

/-- Concrete four-NUMA, one-socket topology with ten CPUs per NUMA. -/
def topoFour : CPUTopology :=
  ⟨40, 4, 1, [(0, 0), (1, 0), (2, 0), (3, 0)]⟩

/-- Annotations enabling numa-binding and numa-exclusive. -/
def annBindExcl : Ann :=
  [("memory-enhancement/numa-binding", "enable"),
   ("memory-enhancement/numa-exclusive", "enable")]

/-- Annotations enabling numa-binding only. -/
def annBindOnly : Ann :=
  [("memory-enhancement/numa-binding", "enable")]

/-- Two empty NUMAs of four CPUs each. -/
def msTwoEmpty : NUMANodeMap :=
  [(0, ⟨∅, {0, 1, 2, 3}, false, []⟩), (1, ⟨∅, {4, 5, 6, 7}, false, []⟩)]

/-- Reserved set leaving only two CPUs available on each NUMA of
`msTwoEmpty`. -/
def rsvTwo : CPUSet :=
  {2, 3, 6, 7}

/-- Two NUMAs of ten CPUs hosting binding workloads: NUMA 0 has two CPUs
available (below the dynamic-packing threshold), NUMA 1 has eight. -/
def msDynCx : NUMANodeMap :=
  [(0, ⟨{0, 1, 2, 3, 4, 5, 6, 7}, {0, 1, 2, 3, 4, 5, 6, 7, 8, 9}, true, []⟩),
   (1, ⟨{10, 11}, {10, 11, 12, 13, 14, 15, 16, 17, 18, 19}, true, []⟩)]

/-- Four empty NUMAs with available quantities 5, 10, 4 and 20. -/
def msFour : NUMANodeMap :=
  [(0, ⟨∅, Finset.range 5, false, []⟩),
   (1, ⟨∅, (Finset.range 10).image (fun x => x + 100), false, []⟩),
   (2, ⟨∅, (Finset.range 4).image (fun x => x + 200), false, []⟩),
   (3, ⟨∅, (Finset.range 20).image (fun x => x + 300), false, []⟩)]

/-- A registry holding one pod with one container. -/
def peOne : PodEntries :=
  [("pod-1", [("main", ⟨"dedicated", true, 2, {0, 1}⟩)])]

/-- A policy environment whose regeneration always succeeds with a fixed
hint list and whose collaborators are inert. -/
def envRegenOk : PolicyEnv :=
  ⟨topoTwo, ∅, "packing", mkRat 1 2,
   fun _ _ => some [⟨[0], true⟩],
   fun _ _ => .ok [],
   fun _ _ => none⟩

/-- A policy environment whose regeneration always fails and whose machine
state regeneration returns the empty state. -/
def envRegenNone : PolicyEnv :=
  ⟨topoTwo, ∅, "packing", mkRat 1 2,
   fun _ _ => none,
   fun _ _ => .ok [],
   fun _ _ => none⟩

/-- A sidecar request on a binding path. -/
def reqSidecar : ResourceRequest :=
  ⟨"pod-1", "pn", "sc", true, annBindOnly, .ok 1⟩

/-- A primary-container request matching the entry of `peOne`. -/
def reqMain : ResourceRequest :=
  ⟨"pod-1", "pn", "main", false, annBindOnly, .ok 2⟩

/-- A freshly appended, not-yet-preferred single-NUMA hint. -/
def mkUnpreferred (i : ℕ) : TopologyHint :=
  ⟨[i], false⟩

/-- The final `minLeft` value over the leftovers of a candidate list. -/
def packTarget (ms : NUMANodeMap) (reserved : CPUSet) (reqInt : ℕ)
    (e : List ℕ) : ℤ :=
  minLeftFold (e.map (leftOf ms reserved reqInt))

/-- The final `maxLeft` value over the leftovers of a candidate list. -/
def spreadTarget (ms : NUMANodeMap) (reserved : CPUSet) (reqInt : ℕ)
    (e : List ℕ) : ℤ :=
  maxLeftFold (e.map (leftOf ms reserved reqInt))

/-! ### Lemmas about the dedicated-cores calculator -/

theorem calculateHints_ok_shape {reqInt : ℕ} {topo : CPUTopology} {rsv : CPUSet}
    {ms : NUMANodeMap} {ann : Ann} {c : CPUHints}
    (h : calculateHints reqInt topo rsv ms ann = .ok c) :
    ∃ K nps, getNUMANodesCountToFitCPUReq reqInt topo = .ok K ∧
      topo.numasPerSocket = .ok nps ∧
      c = some ((iterateBitMasks (sortAsc (ms.map Prod.fst).dedup)).filterMap
        (calculateHintsMaskStep reqInt topo rsv ms ann K nps)) := by
  simp only [calculateHints] at h
  split at h
  · exact absurd h (by simp)
  · rename_i K hK
    split at h
    · exact absurd h (by simp)
    · split at h
      · exact absurd h (by simp)
      · rename_i nps hnps
        refine ⟨K, nps, hK, hnps, ?_⟩
        injection h with h
        exact h.symm

theorem gather_eq_union {ms : NUMANodeMap} {rsv : CPUSet} {ex : Bool} :
    ∀ {mask : List ℕ} {u : CPUSet},
      gatherAvailableInMask ms rsv ex mask = some u →
      u = specAvailableUnion ms rsv mask := by
  intro mask
  induction mask with
  | nil =>
    intro u h
    simp only [gatherAvailableInMask, Option.some.injEq] at h
    simp [specAvailableUnion, ← h]
  | cons i rest ih =>
    intro u h
    simp only [gatherAvailableInMask] at h
    split at h
    · exact absurd h (by simp)
    · rename_i st hl
      split at h
      · exact absurd h (by simp)
      · rename_i hex
        rcases Option.map_eq_some'.mp h with ⟨u', hu', rfl⟩
        rw [ih hu']
        simp [specAvailableUnion, availableSetAt, hl]

theorem gather_exclusive {ms : NUMANodeMap} {rsv : CPUSet} :
    ∀ {mask : List ℕ} {u : CPUSet},
      gatherAvailableInMask ms rsv true mask = some u →
      ∀ i ∈ mask, ∃ st, ms.lookup i = some st ∧ st.allocatedCPUSet = ∅ := by
  intro mask
  induction mask with
  | nil => intro u _ i hi; exact absurd hi (by simp)
  | cons j rest ih =>
    intro u h i hi
    simp only [gatherAvailableInMask] at h
    split at h
    · exact absurd h (by simp)
    · rename_i st hl
      split at h
      · exact absurd h (by simp)
      · rename_i hex
        rcases Option.map_eq_some'.mp h with ⟨u', hu', rfl⟩
        rcases List.mem_cons.mp hi with rfl | hmem
        · refine ⟨st, hl, ?_⟩
          simp only [Bool.true_and, decide_eq_true_eq] at hex
          exact Finset.card_eq_zero.mp (Nat.eq_zero_of_not_pos hex)
        · exact ih hu' i hmem

theorem maskStep_some {reqInt : ℕ} {topo : CPUTopology} {rsv : CPUSet}
    {ms : NUMANodeMap} {ann : Ann} {K nps : ℕ} {mask : List ℕ} {hint : TopologyHint}
    (h : calculateHintsMaskStep reqInt topo rsv ms ann K nps mask = some hint) :
    hint.nodes = mask ∧ hint.preferred = decide (mask.length = K) ∧
    (∃ u, gatherAvailableInMask ms rsv (annIndicateNUMAExclusive ann) mask = some u ∧
      reqInt ≤ u.card) ∧
    (mask.length ≤ nps → checkNUMACrossSockets mask topo = .ok false) := by
  simp only [calculateHintsMaskStep] at h
  split at h
  · exact absurd h (by simp)
  · split at h
    · exact absurd h (by simp)
    · split at h
      · exact absurd h (by simp)
      · rename_i u hg
        split at h
        · exact absurd h (by simp)
        · rename_i hcap
          split at h
          · exact absurd h (by simp)
          · rename_i cs hcs
            split at h
            · exact absurd h (by simp)
            · rename_i hcond
              injection h with h
              subst h
              refine ⟨rfl, rfl, ⟨u, hg, Nat.le_of_not_lt hcap⟩, ?_⟩
              intro hle
              cases cs with
              | false => exact hcs
              | true =>
                exact absurd (by simp [decide_eq_true_eq.mpr hle]) hcond

theorem socketsOf_mem {t : CPUTopology} :
    ∀ {mask sockets : List ℕ}, socketsOf t mask = some sockets →
      ∀ i ∈ mask, ∃ si, t.socketOf i = some si ∧ si ∈ sockets := by
  intro mask
  induction mask with
  | nil => intro sockets _ i hi; exact absurd hi (by simp)
  | cons j rest ih =>
    intro sockets h i hi
    simp only [socketsOf] at h
    split at h
    · exact absurd h (by simp)
    · rename_i s hs
      rcases Option.map_eq_some'.mp h with ⟨ss, hss, rfl⟩
      rcases List.mem_cons.mp hi with rfl | hmem
      · exact ⟨s, hs, List.mem_cons_self _ _⟩
      · rcases ih hss i hmem with ⟨si, hsi, hsimem⟩
        exact ⟨si, hsi, List.mem_cons_of_mem _ hsimem⟩

theorem all_eq_of_dedup_length_le_one {l : List ℕ} (h : l.dedup.length ≤ 1) :
    ∀ a ∈ l, ∀ b ∈ l, a = b := by
  intro a ha b hb
  have ha' := List.mem_dedup.mpr ha
  have hb' := List.mem_dedup.mpr hb
  rcases hd : l.dedup with _ | ⟨x, _ | ⟨y, t⟩⟩
  · rw [hd] at ha'; exact absurd ha' (by simp)
  · rw [hd] at ha' hb'
    simp only [List.mem_singleton] at ha' hb'
    rw [ha', hb']
  · rw [hd] at h; simp at h

theorem crossSockets_ok_false {mask : List ℕ} {t : CPUTopology}
    (h : checkNUMACrossSockets mask t = .ok false) :
    ∃ s, ∀ i ∈ mask, t.socketOf i = some s := by
  simp only [checkNUMACrossSockets] at h
  split at h
  · exact absurd h (by simp)
  · rename_i sockets hsoc
    injection h with h
    have hlen : sockets.dedup.length ≤ 1 := by
      by_contra hgt
      simp [Nat.lt_of_not_le hgt] at h
    cases mask with
    | nil => exact ⟨0, by simp⟩
    | cons j rest =>
      rcases socketsOf_mem hsoc j (List.mem_cons_self _ _) with ⟨s, hs, hsmem⟩
      refine ⟨s, ?_⟩
      intro i hi
      rcases socketsOf_mem hsoc i hi with ⟨si, hsi, hsimem⟩
      rw [hsi, all_eq_of_dedup_length_le_one hlen si hsimem s hsmem]

/-! ### Claim theorems on the dedicated-cores calculator -/

/-- C2 counterexample: with two NUMAs of four CPUs, reserved CPUs leaving two
available on each, and a numa-binding numa-exclusive request of three CPUs,
the topology-derived minimum NUMA count is `K = 1`, yet the only emitted hint
is `{0, 1}` (cardinality 2) and it is not preferred — the emitted set is
non-empty while no hint is marked preferred, and the minimum-cardinality
emitted hint is not preferred. -/
theorem dedicated_preferred_counterexample :
    calculateHints 3 topoTwo rsvTwo msTwoEmpty annBindExcl =
      .ok (some [⟨[0, 1], false⟩]) ∧
    getNUMANodesCountToFitCPUReq 3 topoTwo = .ok 1 := by
  constructor <;> rfl

/-- C2 (amended): in the dedicated-with-binding calculator the hints marked
preferred are exactly those whose node-set cardinality equals `K`, the
minimum NUMA count computed from the topology; hence some hint is preferred
iff some emitted hint has cardinality `K`. -/
theorem dedicated_preferred_iff_minCount {reqInt : ℕ} {topo : CPUTopology}
    {rsv : CPUSet} {ms : NUMANodeMap} {ann : Ann} {l : List TopologyHint} {K : ℕ}
    (hok : calculateHints reqInt topo rsv ms ann = .ok (some l))
    (hK : getNUMANodesCountToFitCPUReq reqInt topo = .ok K) :
    (∀ h ∈ l, h.preferred = decide (h.nodes.length = K)) ∧
    ((∃ h ∈ l, h.preferred = true) ↔ ∃ h ∈ l, h.nodes.length = K) := by
  obtain ⟨K', nps, hK', hnps, hc⟩ := calculateHints_ok_shape hok
  rw [hK] at hK'
  injection hK' with e
  subst e
  injection hc with hc
  have main : ∀ h ∈ l, h.preferred = decide (h.nodes.length = K) := by
    intro h hh
    rw [hc] at hh
    obtain ⟨mask, _, hstep⟩ := List.mem_filterMap.mp hh
    obtain ⟨hn, hp, _, _⟩ := maskStep_some hstep
    rw [hp, hn]
  refine ⟨main, ?_, ?_⟩
  · rintro ⟨h, hh, hp⟩
    refine ⟨h, hh, ?_⟩
    have := main h hh
    rw [hp] at this
    exact of_decide_eq_true this.symm
  · rintro ⟨h, hh, hlen⟩
    exact ⟨h, hh, by rw [main h hh, decide_eq_true_eq.mpr hlen]⟩

/-- C3: when the topology-derived minimum NUMA count `K` exceeds one, the
dedicated calculator fails for numa-binding-without-exclusive requests, and
the shared-with-binding calculator fails unconditionally; in both cases only
an error (no hints) is produced. -/
theorem request_exceeds_single_numa_errors {reqInt : ℕ} {topo : CPUTopology}
    {K : ℕ} (hK : getNUMANodesCountToFitCPUReq reqInt topo = .ok K)
    (h1 : 1 < K) :
    (∀ (rsv : CPUSet) (ms : NUMANodeMap) (ann : Ann),
      annIndicateNUMABinding ann = true → annIndicateNUMAExclusive ann = false →
      ∃ e, calculateHints reqInt topo rsv ms ann = .error e) ∧
    (∀ (rsv : CPUSet) (policy : String) (θ : ℚ) (pe : PodEntries)
      (ms : NUMANodeMap) (ann : Ann),
      ∃ e, calculateHintsForNUMABindingSharedCores reqInt topo rsv policy θ pe ms ann =
        .error e) := by
  constructor
  · intro rsv ms ann hb hex
    refine ⟨"NUMA not exclusive binding container has request larger than 1 NUMA", ?_⟩
    simp [calculateHints, hK, hb, hex, h1]
  · intro rsv policy θ pe ms ann
    refine ⟨"numa_binding shared_cores container has request larger than 1 NUMA", ?_⟩
    simp [calculateHintsForNUMABindingSharedCores, hK, h1]

/-- C6: under numa-exclusive annotations, every NUMA node of every hint
emitted by the dedicated calculator has an empty allocated CPU set (subsets
touching a NUMA with allocated CPUs are skipped). -/
theorem exclusive_skips_allocated_numa {reqInt : ℕ} {topo : CPUTopology}
    {rsv : CPUSet} {ms : NUMANodeMap} {ann : Ann} {l : List TopologyHint}
    (hex : annIndicateNUMAExclusive ann = true)
    (hok : calculateHints reqInt topo rsv ms ann = .ok (some l)) :
    ∀ h ∈ l, ∀ i ∈ h.nodes, ∃ st, ms.lookup i = some st ∧ st.allocatedCPUSet = ∅ := by
  obtain ⟨K, nps, _, _, hc⟩ := calculateHints_ok_shape hok
  injection hc with hc
  intro h hh i hi
  rw [hc] at hh
  obtain ⟨mask, _, hstep⟩ := List.mem_filterMap.mp hh
  obtain ⟨hn, _, ⟨u, hg, _⟩, _⟩ := maskStep_some hstep
  rw [hex] at hg
  rw [hn] at hi
  exact gather_exclusive hg i hi

/-- C7: every hint emitted by the dedicated calculator whose cardinality is
at most `numas_per_socket` lies on a single socket, and a candidate mask of
such cardinality whose NUMAs span sockets is skipped (never emitted). -/
theorem cross_socket_filter {reqInt : ℕ} {topo : CPUTopology} {rsv : CPUSet}
    {ms : NUMANodeMap} {ann : Ann} {l : List TopologyHint} {nps : ℕ}
    (hok : calculateHints reqInt topo rsv ms ann = .ok (some l))
    (hnps : topo.numasPerSocket = .ok nps) :
    (∀ h ∈ l, h.nodes.length ≤ nps →
      ∃ s, ∀ i ∈ h.nodes, topo.socketOf i = some s) ∧
    (∀ (K : ℕ) (mask : List ℕ), mask.length ≤ nps →
      checkNUMACrossSockets mask topo = .ok true →
      calculateHintsMaskStep reqInt topo rsv ms ann K nps mask = none) := by
  obtain ⟨K', nps', hK', hnps', hc⟩ := calculateHints_ok_shape hok
  rw [hnps] at hnps'
  injection hnps' with e
  subst e
  injection hc with hc
  constructor
  · intro h hh hlen
    rw [hc] at hh
    obtain ⟨mask, _, hstep⟩ := List.mem_filterMap.mp hh
    obtain ⟨hn, _, _, hcross⟩ := maskStep_some hstep
    rw [hn] at hlen ⊢
    exact crossSockets_ok_false (hcross hlen)
  · intro K mask hlen hcross
    simp only [calculateHintsMaskStep]
    split
    · rfl
    · split
      · rfl
      · split
        · rfl
        · rename_i u hg
          split
          · rfl
          · split
            · rfl
            · rename_i cs hcs
              rw [hcross] at hcs
              injection hcs with hcs
              rw [if_pos]
              simp [← hcs, hlen]

/-- Witness for C2 (amended) at the concrete fragmented-availability state:
no hint of the emitted singleton list is preferred, and indeed none has
cardinality `K = 1`. -/
theorem dedicated_preferred_iff_minCount_witness :
    (∃ h ∈ [(⟨[0, 1], false⟩ : TopologyHint)], h.preferred = true) ↔
      ∃ h ∈ [(⟨[0, 1], false⟩ : TopologyHint)], h.nodes.length = 1 :=
  (@dedicated_preferred_iff_minCount 3 topoTwo rsvTwo msTwoEmpty annBindExcl
    [⟨[0, 1], false⟩] 1 rfl rfl).2

/-- Witness for C3: a five-CPU request over two four-CPU NUMAs needs `K = 2`
NUMAs, so both calculators fail. -/
theorem request_exceeds_single_numa_errors_witness :
    (∃ e, calculateHints 5 topoTwo ∅ msTwoEmpty annBindOnly = .error e) ∧
    (∃ e, calculateHintsForNUMABindingSharedCores 5 topoTwo ∅ "packing" (mkRat 1 2)
      [] msTwoEmpty annBindOnly = .error e) :=
  ⟨(@request_exceeds_single_numa_errors 5 topoTwo 2 rfl (by decide)).1
      ∅ msTwoEmpty annBindOnly rfl rfl,
   (@request_exceeds_single_numa_errors 5 topoTwo 2 rfl (by decide)).2
      ∅ "packing" (mkRat 1 2) [] msTwoEmpty annBindOnly⟩

/-- Witness for C6: the emitted hint `{0, 1}` of the concrete exclusive
request touches NUMA 0, whose allocated CPU set is empty. -/
theorem exclusive_skips_allocated_numa_witness :
    ∃ st, NUMANodeMap.lookup msTwoEmpty 0 = some st ∧ st.allocatedCPUSet = ∅ :=
  @exclusive_skips_allocated_numa 3 topoTwo rsvTwo msTwoEmpty annBindExcl
    [⟨[0, 1], false⟩] rfl rfl ⟨[0, 1], false⟩ (by simp) 0 (by simp)

/-- Witness for C7: the emitted two-NUMA hint of the concrete request has
cardinality equal to `numas_per_socket = 2` and lies on a single socket. -/
theorem cross_socket_filter_witness :
    ∃ s, ∀ i ∈ [0, 1], topoTwo.socketOf i = some s :=
  (@cross_socket_filter 3 topoTwo rsvTwo msTwoEmpty annBindExcl
    [⟨[0, 1], false⟩] 2 rfl rfl).1 ⟨[0, 1], false⟩ (by simp) (by decide)

/-! ### Lemmas about the prefer-policy loop -/

theorem foldr_min_append (xs : List ℤ) (c s : ℤ) :
    (xs ++ [c]).foldr min s = min (xs.foldr min s) c := by
  induction xs with
  | nil => simp [min_comm]
  | cons x xs ih => simp [ih, min_assoc]

theorem foldr_max_append (xs : List ℤ) (c s : ℤ) :
    (xs ++ [c]).foldr max s = max (xs.foldr max s) c := by
  induction xs with
  | nil => simp [max_comm]
  | cons x xs ih => simp [ih, max_assoc]

theorem foldr_min_le (xs : List ℤ) (s : ℤ) : ∀ x ∈ xs, xs.foldr min s ≤ x := by
  induction xs with
  | nil => intro x hx; exact absurd hx (by simp)
  | cons y ys ih =>
    intro x hx
    rcases List.mem_cons.mp hx with rfl | hx'
    · exact min_le_left _ _
    · exact le_trans (min_le_right _ _) (ih x hx')

theorem foldr_min_le_seed (xs : List ℤ) (s : ℤ) : xs.foldr min s ≤ s := by
  induction xs with
  | nil => simp
  | cons y ys ih => exact le_trans (min_le_right _ _) ih

theorem le_foldr_min (xs : List ℤ) (s c : ℤ) (h : c ≤ s)
    (h2 : ∀ x ∈ xs, c ≤ x) : c ≤ xs.foldr min s := by
  induction xs with
  | nil => simpa
  | cons y ys ih =>
    exact le_min (h2 y (by simp)) (ih (fun x hx => h2 x (by simp [hx])))

theorem le_foldr_max (xs : List ℤ) (s : ℤ) : ∀ x ∈ xs, x ≤ xs.foldr max s := by
  induction xs with
  | nil => intro x hx; exact absurd hx (by simp)
  | cons y ys ih =>
    intro x hx
    rcases List.mem_cons.mp hx with rfl | hx'
    · exact le_max_left _ _
    · exact le_trans (ih x hx') (le_max_right _ _)

theorem foldr_max_le (xs : List ℤ) (s c : ℤ) (h : s ≤ c)
    (h2 : ∀ x ∈ xs, x ≤ c) : xs.foldr max s ≤ c := by
  induction xs with
  | nil => simpa
  | cons y ys ih =>
    exact max_le (h2 y (by simp)) (ih (fun x hx => h2 x (by simp [hx])))

theorem argIdxsAux_append (f : ℕ → ℤ) (t : ℤ) :
    ∀ (xs ys : List ℕ) (n : ℕ),
      argIdxsAux f t n (xs ++ ys) =
        argIdxsAux f t n xs ++ argIdxsAux f t (n + xs.length) ys := by
  intro xs
  induction xs with
  | nil => intro ys n; simp [argIdxsAux]
  | cons x xs ih =>
    intro ys n
    have hidx : n + (x :: xs).length = n + 1 + xs.length := by
      simp only [List.length_cons]
      omega
    simp only [List.cons_append, argIdxsAux, hidx]
    by_cases hx : f x = t
    · simp only [if_pos hx]
      exact congrArg (List.cons n) (ih ys (n + 1))
    · simp only [if_neg hx]
      exact ih ys (n + 1)

theorem argIdxsAux_nil_of_ne (f : ℕ → ℤ) (t : ℤ) :
    ∀ (xs : List ℕ) (n : ℕ), (∀ x ∈ xs, ¬f x = t) → argIdxsAux f t n xs = [] := by
  intro xs
  induction xs with
  | nil => intro n _; rfl
  | cons x xs ih =>
    intro n h
    simp only [argIdxsAux, if_neg (h x (by simp))]
    exact ih (n + 1) (fun y hy => h y (by simp [hy]))

theorem argIdxsAux_ge (f : ℕ → ℤ) (t : ℤ) :
    ∀ (xs : List ℕ) (n : ℕ), ∀ j ∈ argIdxsAux f t n xs, n ≤ j := by
  intro xs
  induction xs with
  | nil => intro n j hj; exact absurd hj (by simp [argIdxsAux])
  | cons x xs ih =>
    intro n j hj
    simp only [argIdxsAux] at hj
    by_cases hx : f x = t
    · rw [if_pos hx] at hj
      rcases List.mem_cons.mp hj with rfl | hj'
      · exact le_refl _
      · exact le_trans (Nat.le_succ _) (ih (n + 1) j hj')
    · rw [if_neg hx] at hj
      exact le_trans (Nat.le_succ _) (ih (n + 1) j hj)

theorem markPreferredAux_congr (idxs idxs' : List ℕ) :
    ∀ (hs : List TopologyHint) (n : ℕ),
      (∀ j, n ≤ j → (j ∈ idxs ↔ j ∈ idxs')) →
      markPreferredAux idxs n hs = markPreferredAux idxs' n hs := by
  intro hs
  induction hs with
  | nil => intro n _; rfl
  | cons h hs ih =>
    intro n hiff
    simp only [markPreferredAux]
    rw [ih (n + 1) (fun j hj => hiff j (le_trans (Nat.le_succ _) hj))]
    congr 1
    by_cases hn : n ∈ idxs
    · rw [if_pos hn, if_pos ((hiff n (le_refl _)).mp hn)]
    · rw [if_neg hn, if_neg (fun hn' => hn ((hiff n (le_refl _)).mpr hn'))]

theorem markPreferredAux_argIdxs (f : ℕ → ℤ) (t : ℤ) :
    ∀ (e : List ℕ) (n : ℕ),
      markPreferredAux (argIdxsAux f t n e) n (e.map mkUnpreferred) =
        e.map (fun i => ⟨[i], decide (f i = t)⟩) := by
  intro e
  induction e with
  | nil => intro n; rfl
  | cons i rest ih =>
    intro n
    simp only [List.map_cons, markPreferredAux, argIdxsAux]
    have hge : ∀ j ∈ argIdxsAux f t (n + 1) rest, n + 1 ≤ j :=
      argIdxsAux_ge f t rest (n + 1)
    have hnotmem : n ∉ argIdxsAux f t (n + 1) rest := by
      intro hmem
      exact absurd (hge n hmem) (by omega)
    by_cases hx : f i = t
    · simp only [if_pos hx]
      have hcongr : markPreferredAux (n :: argIdxsAux f t (n + 1) rest) (n + 1)
          (rest.map mkUnpreferred) =
          markPreferredAux (argIdxsAux f t (n + 1) rest) (n + 1)
            (rest.map mkUnpreferred) := by
        apply markPreferredAux_congr
        intro j hj
        constructor
        · intro hjm
          rcases List.mem_cons.mp hjm with rfl | hjm'
          · omega
          · exact hjm'
        · intro hjm
          exact List.mem_cons_of_mem _ hjm
      rw [hcongr, ih (n + 1)]
      simp only [if_pos (List.mem_cons_self n (argIdxsAux f t (n + 1) rest))]
      simp [mkUnpreferred, hx]
    · simp only [if_neg hx]
      rw [ih (n + 1)]
      simp only [if_neg hnotmem]
      simp [mkUnpreferred, hx]

theorem emittedNodes_cons_pos {ms : NUMANodeMap} {rsv : CPUSet} {reqInt : ℕ}
    {i : ℕ} (rest : List ℕ) (h : reqInt ≤ availableQuantityAt ms rsv i) :
    emittedNodes ms rsv reqInt (i :: rest) = i :: emittedNodes ms rsv reqInt rest := by
  simp [emittedNodes, List.filter_cons, h]

theorem emittedNodes_cons_neg {ms : NUMANodeMap} {rsv : CPUSet} {reqInt : ℕ}
    {i : ℕ} (rest : List ℕ) (h : availableQuantityAt ms rsv i < reqInt) :
    emittedNodes ms rsv reqInt (i :: rest) = emittedNodes ms rsv reqInt rest := by
  simp [emittedNodes, List.filter_cons, Nat.not_le.mpr h]

theorem packTarget_append {ms : NUMANodeMap} {rsv : CPUSet} {reqInt : ℕ}
    (e : List ℕ) (i : ℕ) :
    packTarget ms rsv reqInt (e ++ [i]) =
      min (packTarget ms rsv reqInt e) (leftOf ms rsv reqInt i) := by
  simp only [packTarget, minLeftFold, List.map_append, List.map_cons, List.map_nil]
  exact foldr_min_append _ _ _

theorem spreadTarget_append {ms : NUMANodeMap} {rsv : CPUSet} {reqInt : ℕ}
    (e : List ℕ) (i : ℕ) :
    spreadTarget ms rsv reqInt (e ++ [i]) =
      max (spreadTarget ms rsv reqInt e) (leftOf ms rsv reqInt i) := by
  simp only [spreadTarget, maxLeftFold, List.map_append, List.map_cons, List.map_nil]
  exact foldr_max_append _ _ _

theorem packTarget_le {ms : NUMANodeMap} {rsv : CPUSet} {reqInt : ℕ}
    {e : List ℕ} {x : ℕ} (hx : x ∈ e) :
    packTarget ms rsv reqInt e ≤ leftOf ms rsv reqInt x :=
  foldr_min_le _ _ _ (List.mem_map_of_mem _ hx)

theorem le_spreadTarget {ms : NUMANodeMap} {rsv : CPUSet} {reqInt : ℕ}
    {e : List ℕ} {x : ℕ} (hx : x ∈ e) :
    leftOf ms rsv reqInt x ≤ spreadTarget ms rsv reqInt e :=
  le_foldr_max _ _ _ (List.mem_map_of_mem _ hx)

theorem populateLoop_packing (ms : NUMANodeMap) (rsv : CPUSet) (reqInt : ℕ)
    {policy : String} (hpol : (policy == policyPacking) = true) :
    ∀ (l e : List ℕ) (M : ℤ),
      populateLoop rsv reqInt policy ms l
        ⟨e.map mkUnpreferred,
         argIdxsAux (leftOf ms rsv reqInt) (packTarget ms rsv reqInt e) 0 e,
         M, packTarget ms rsv reqInt e⟩ =
      ⟨(e ++ emittedNodes ms rsv reqInt l).map mkUnpreferred,
       argIdxsAux (leftOf ms rsv reqInt)
         (packTarget ms rsv reqInt (e ++ emittedNodes ms rsv reqInt l)) 0
         (e ++ emittedNodes ms rsv reqInt l),
       M, packTarget ms rsv reqInt (e ++ emittedNodes ms rsv reqInt l)⟩ := by
  intro l
  induction l with
  | nil =>
    intro e M
    simp [populateLoop, emittedNodes]
  | cons i rest ih =>
    intro e M
    simp only [populateLoop]
    by_cases hcap : availableQuantityAt ms rsv i < reqInt
    · have hstep : populateStep rsv reqInt policy ms
          ⟨e.map mkUnpreferred,
           argIdxsAux (leftOf ms rsv reqInt) (packTarget ms rsv reqInt e) 0 e,
           M, packTarget ms rsv reqInt e⟩ i =
          ⟨e.map mkUnpreferred,
           argIdxsAux (leftOf ms rsv reqInt) (packTarget ms rsv reqInt e) 0 e,
           M, packTarget ms rsv reqInt e⟩ := by
        simp [populateStep, hcap]
      rw [hstep, emittedNodes_cons_neg rest hcap]
      exact ih e M
    · have hle : reqInt ≤ availableQuantityAt ms rsv i := Nat.le_of_not_lt hcap
      have hmap : (e.map mkUnpreferred) ++ [(⟨[i], false⟩ : TopologyHint)] =
          (e ++ [i]).map mkUnpreferred := by
        simp [mkUnpreferred]
      have hidx : ((e.map mkUnpreferred) ++ [(⟨[i], false⟩ : TopologyHint)]).length - 1 =
          e.length := by
        simp
      have hcur : (availableQuantityAt ms rsv i : ℤ) - (reqInt : ℤ) =
          leftOf ms rsv reqInt i := rfl
      rw [emittedNodes_cons_pos rest hle]
      have hassoc : e ++ i :: emittedNodes ms rsv reqInt rest =
          (e ++ [i]) ++ emittedNodes ms rsv reqInt rest := by
        simp
      rw [hassoc]
      rcases lt_trichotomy (leftOf ms rsv reqInt i) (packTarget ms rsv reqInt e) with
        hlt | heq | hgt
      · have htgt : packTarget ms rsv reqInt (e ++ [i]) = leftOf ms rsv reqInt i := by
          rw [packTarget_append]
          exact min_eq_right (le_of_lt hlt)
        have harg : argIdxsAux (leftOf ms rsv reqInt)
            (leftOf ms rsv reqInt i) 0 (e ++ [i]) = [e.length] := by
          rw [argIdxsAux_append]
          rw [argIdxsAux_nil_of_ne _ _ e 0 (fun x hx hfx => ?_)]
          · simp [argIdxsAux]
          · exact absurd (hfx ▸ packTarget_le hx) (not_le.mpr hlt)
        have hstep : populateStep rsv reqInt policy ms
            ⟨e.map mkUnpreferred,
             argIdxsAux (leftOf ms rsv reqInt) (packTarget ms rsv reqInt e) 0 e,
             M, packTarget ms rsv reqInt e⟩ i =
            ⟨(e ++ [i]).map mkUnpreferred, [e.length], M, leftOf ms rsv reqInt i⟩ := by
          simp only [populateStep, if_neg hcap, hpol, if_true, hcur, hmap]
          rw [if_pos hlt]
          simp
        have hacc : (⟨(e ++ [i]).map mkUnpreferred,
            argIdxsAux (leftOf ms rsv reqInt)
              (packTarget ms rsv reqInt (e ++ [i])) 0 (e ++ [i]),
            M, packTarget ms rsv reqInt (e ++ [i])⟩ : PopulateAcc) =
            ⟨(e ++ [i]).map mkUnpreferred, [e.length], M, leftOf ms rsv reqInt i⟩ := by
          rw [htgt, harg]
        rw [hstep, ← hacc]
        exact ih (e ++ [i]) M
      · have htgt : packTarget ms rsv reqInt (e ++ [i]) = packTarget ms rsv reqInt e := by
          rw [packTarget_append]
          exact min_eq_left (le_of_eq heq.symm)
        have harg : argIdxsAux (leftOf ms rsv reqInt)
            (packTarget ms rsv reqInt e) 0 (e ++ [i]) =
            argIdxsAux (leftOf ms rsv reqInt) (packTarget ms rsv reqInt e) 0 e
              ++ [e.length] := by
          rw [argIdxsAux_append]
          simp [argIdxsAux, heq]
        have hstep : populateStep rsv reqInt policy ms
            ⟨e.map mkUnpreferred,
             argIdxsAux (leftOf ms rsv reqInt) (packTarget ms rsv reqInt e) 0 e,
             M, packTarget ms rsv reqInt e⟩ i =
            ⟨(e ++ [i]).map mkUnpreferred,
             argIdxsAux (leftOf ms rsv reqInt) (packTarget ms rsv reqInt e) 0 e
               ++ [e.length],
             M, packTarget ms rsv reqInt e⟩ := by
          simp only [populateStep, if_neg hcap, hpol, if_true, hcur, hmap]
          rw [if_neg (not_lt.mpr (le_of_eq heq.symm)), if_pos heq]
          simp
        have hacc : (⟨(e ++ [i]).map mkUnpreferred,
            argIdxsAux (leftOf ms rsv reqInt)
              (packTarget ms rsv reqInt (e ++ [i])) 0 (e ++ [i]),
            M, packTarget ms rsv reqInt (e ++ [i])⟩ : PopulateAcc) =
            ⟨(e ++ [i]).map mkUnpreferred,
             argIdxsAux (leftOf ms rsv reqInt) (packTarget ms rsv reqInt e) 0 e
               ++ [e.length],
             M, packTarget ms rsv reqInt e⟩ := by
          rw [htgt, harg]
        rw [hstep, ← hacc]
        exact ih (e ++ [i]) M
      · have htgt : packTarget ms rsv reqInt (e ++ [i]) = packTarget ms rsv reqInt e := by
          rw [packTarget_append]
          exact min_eq_left (le_of_lt hgt)
        have harg : argIdxsAux (leftOf ms rsv reqInt)
            (packTarget ms rsv reqInt e) 0 (e ++ [i]) =
            argIdxsAux (leftOf ms rsv reqInt) (packTarget ms rsv reqInt e) 0 e := by
          rw [argIdxsAux_append]
          simp [argIdxsAux, (ne_of_lt hgt).symm]
        have hstep : populateStep rsv reqInt policy ms
            ⟨e.map mkUnpreferred,
             argIdxsAux (leftOf ms rsv reqInt) (packTarget ms rsv reqInt e) 0 e,
             M, packTarget ms rsv reqInt e⟩ i =
            ⟨(e ++ [i]).map mkUnpreferred,
             argIdxsAux (leftOf ms rsv reqInt) (packTarget ms rsv reqInt e) 0 e,
             M, packTarget ms rsv reqInt e⟩ := by
          simp only [populateStep, if_neg hcap, hpol, if_true, hcur, hmap]
          rw [if_neg (not_lt.mpr (le_of_lt hgt)), if_neg (ne_of_lt hgt).symm]
        have hacc : (⟨(e ++ [i]).map mkUnpreferred,
            argIdxsAux (leftOf ms rsv reqInt)
              (packTarget ms rsv reqInt (e ++ [i])) 0 (e ++ [i]),
            M, packTarget ms rsv reqInt (e ++ [i])⟩ : PopulateAcc) =
            ⟨(e ++ [i]).map mkUnpreferred,
             argIdxsAux (leftOf ms rsv reqInt) (packTarget ms rsv reqInt e) 0 e,
             M, packTarget ms rsv reqInt e⟩ := by
          rw [htgt, harg]
        rw [hstep, ← hacc]
        exact ih (e ++ [i]) M

theorem populateLoop_spreading (ms : NUMANodeMap) (rsv : CPUSet) (reqInt : ℕ)
    {policy : String} (hpol : (policy == policyPacking) = false) :
    ∀ (l e : List ℕ) (M : ℤ),
      populateLoop rsv reqInt policy ms l
        ⟨e.map mkUnpreferred,
         argIdxsAux (leftOf ms rsv reqInt) (spreadTarget ms rsv reqInt e) 0 e,
         spreadTarget ms rsv reqInt e, M⟩ =
      ⟨(e ++ emittedNodes ms rsv reqInt l).map mkUnpreferred,
       argIdxsAux (leftOf ms rsv reqInt)
         (spreadTarget ms rsv reqInt (e ++ emittedNodes ms rsv reqInt l)) 0
         (e ++ emittedNodes ms rsv reqInt l),
       spreadTarget ms rsv reqInt (e ++ emittedNodes ms rsv reqInt l), M⟩ := by
  intro l
  induction l with
  | nil =>
    intro e M
    simp [populateLoop, emittedNodes]
  | cons i rest ih =>
    intro e M
    simp only [populateLoop]
    by_cases hcap : availableQuantityAt ms rsv i < reqInt
    · have hstep : populateStep rsv reqInt policy ms
          ⟨e.map mkUnpreferred,
           argIdxsAux (leftOf ms rsv reqInt) (spreadTarget ms rsv reqInt e) 0 e,
           spreadTarget ms rsv reqInt e, M⟩ i =
          ⟨e.map mkUnpreferred,
           argIdxsAux (leftOf ms rsv reqInt) (spreadTarget ms rsv reqInt e) 0 e,
           spreadTarget ms rsv reqInt e, M⟩ := by
        simp [populateStep, hcap]
      rw [hstep, emittedNodes_cons_neg rest hcap]
      exact ih e M
    · have hle : reqInt ≤ availableQuantityAt ms rsv i := Nat.le_of_not_lt hcap
      have hmap : (e.map mkUnpreferred) ++ [(⟨[i], false⟩ : TopologyHint)] =
          (e ++ [i]).map mkUnpreferred := by
        simp [mkUnpreferred]
      have hcur : (availableQuantityAt ms rsv i : ℤ) - (reqInt : ℤ) =
          leftOf ms rsv reqInt i := rfl
      rw [emittedNodes_cons_pos rest hle]
      have hassoc : e ++ i :: emittedNodes ms rsv reqInt rest =
          (e ++ [i]) ++ emittedNodes ms rsv reqInt rest := by
        simp
      rw [hassoc]
      rcases lt_trichotomy (spreadTarget ms rsv reqInt e) (leftOf ms rsv reqInt i) with
        hlt | heq | hgt
      · have htgt : spreadTarget ms rsv reqInt (e ++ [i]) = leftOf ms rsv reqInt i := by
          rw [spreadTarget_append]
          exact max_eq_right (le_of_lt hlt)
        have harg : argIdxsAux (leftOf ms rsv reqInt)
            (leftOf ms rsv reqInt i) 0 (e ++ [i]) = [e.length] := by
          rw [argIdxsAux_append]
          rw [argIdxsAux_nil_of_ne _ _ e 0 (fun x hx hfx => ?_)]
          · simp [argIdxsAux]
          · exact absurd (hfx ▸ le_spreadTarget hx) (not_le.mpr hlt)
        have hstep : populateStep rsv reqInt policy ms
            ⟨e.map mkUnpreferred,
             argIdxsAux (leftOf ms rsv reqInt) (spreadTarget ms rsv reqInt e) 0 e,
             spreadTarget ms rsv reqInt e, M⟩ i =
            ⟨(e ++ [i]).map mkUnpreferred, [e.length], leftOf ms rsv reqInt i, M⟩ := by
          simp only [populateStep, if_neg hcap, hpol, Bool.false_eq_true, if_false,
            hcur, hmap]
          rw [if_pos hlt]
          simp
        have hacc : (⟨(e ++ [i]).map mkUnpreferred,
            argIdxsAux (leftOf ms rsv reqInt)
              (spreadTarget ms rsv reqInt (e ++ [i])) 0 (e ++ [i]),
            spreadTarget ms rsv reqInt (e ++ [i]), M⟩ : PopulateAcc) =
            ⟨(e ++ [i]).map mkUnpreferred, [e.length], leftOf ms rsv reqInt i, M⟩ := by
          rw [htgt, harg]
        rw [hstep, ← hacc]
        exact ih (e ++ [i]) M
      · have htgt : spreadTarget ms rsv reqInt (e ++ [i]) = spreadTarget ms rsv reqInt e := by
          rw [spreadTarget_append]
          exact max_eq_left (le_of_eq heq.symm)
        have harg : argIdxsAux (leftOf ms rsv reqInt)
            (spreadTarget ms rsv reqInt e) 0 (e ++ [i]) =
            argIdxsAux (leftOf ms rsv reqInt) (spreadTarget ms rsv reqInt e) 0 e
              ++ [e.length] := by
          rw [argIdxsAux_append]
          simp [argIdxsAux, heq.symm]
        have hstep : populateStep rsv reqInt policy ms
            ⟨e.map mkUnpreferred,
             argIdxsAux (leftOf ms rsv reqInt) (spreadTarget ms rsv reqInt e) 0 e,
             spreadTarget ms rsv reqInt e, M⟩ i =
            ⟨(e ++ [i]).map mkUnpreferred,
             argIdxsAux (leftOf ms rsv reqInt) (spreadTarget ms rsv reqInt e) 0 e
               ++ [e.length],
             spreadTarget ms rsv reqInt e, M⟩ := by
          simp only [populateStep, if_neg hcap, hpol, Bool.false_eq_true, if_false,
            hcur, hmap]
          rw [if_neg (not_lt.mpr (le_of_eq heq.symm)), if_pos heq.symm]
          simp
        have hacc : (⟨(e ++ [i]).map mkUnpreferred,
            argIdxsAux (leftOf ms rsv reqInt)
              (spreadTarget ms rsv reqInt (e ++ [i])) 0 (e ++ [i]),
            spreadTarget ms rsv reqInt (e ++ [i]), M⟩ : PopulateAcc) =
            ⟨(e ++ [i]).map mkUnpreferred,
             argIdxsAux (leftOf ms rsv reqInt) (spreadTarget ms rsv reqInt e) 0 e
               ++ [e.length],
             spreadTarget ms rsv reqInt e, M⟩ := by
          rw [htgt, harg]
        rw [hstep, ← hacc]
        exact ih (e ++ [i]) M
      · have htgt : spreadTarget ms rsv reqInt (e ++ [i]) = spreadTarget ms rsv reqInt e := by
          rw [spreadTarget_append]
          exact max_eq_left (le_of_lt hgt)
        have harg : argIdxsAux (leftOf ms rsv reqInt)
            (spreadTarget ms rsv reqInt e) 0 (e ++ [i]) =
            argIdxsAux (leftOf ms rsv reqInt) (spreadTarget ms rsv reqInt e) 0 e := by
          rw [argIdxsAux_append]
          simp [argIdxsAux, ne_of_lt hgt]
        have hstep : populateStep rsv reqInt policy ms
            ⟨e.map mkUnpreferred,
             argIdxsAux (leftOf ms rsv reqInt) (spreadTarget ms rsv reqInt e) 0 e,
             spreadTarget ms rsv reqInt e, M⟩ i =
            ⟨(e ++ [i]).map mkUnpreferred,
             argIdxsAux (leftOf ms rsv reqInt) (spreadTarget ms rsv reqInt e) 0 e,
             spreadTarget ms rsv reqInt e, M⟩ := by
          simp only [populateStep, if_neg hcap, hpol, Bool.false_eq_true, if_false,
            hcur, hmap]
          rw [if_neg (not_lt.mpr (le_of_lt hgt)), if_neg (ne_of_lt hgt)]
        have hacc : (⟨(e ++ [i]).map mkUnpreferred,
            argIdxsAux (leftOf ms rsv reqInt)
              (spreadTarget ms rsv reqInt (e ++ [i])) 0 (e ++ [i]),
            spreadTarget ms rsv reqInt (e ++ [i]), M⟩ : PopulateAcc) =
            ⟨(e ++ [i]).map mkUnpreferred,
             argIdxsAux (leftOf ms rsv reqInt) (spreadTarget ms rsv reqInt e) 0 e,
             spreadTarget ms rsv reqInt e, M⟩ := by
          rw [htgt, harg]
        rw [hstep, ← hacc]
        exact ih (e ++ [i]) M

theorem populate_eq_packing {policy : String} (hpol : (policy == policyPacking) = true)
    (ms : NUMANodeMap) (rsv : CPUSet) (reqInt : ℕ) (numaNodes : List ℕ) :
    populateHintsByPreferPolicy rsv reqInt policy ms numaNodes [] =
      (emittedNodes ms rsv reqInt numaNodes).map
        (fun i => ⟨[i], decide (leftOf ms rsv reqInt i =
          packTarget ms rsv reqInt (emittedNodes ms rsv reqInt numaNodes))⟩) := by
  simp only [populateHintsByPreferPolicy]
  have hinit : (⟨[], [], -1, goMaxInt⟩ : PopulateAcc) =
      ⟨([] : List ℕ).map mkUnpreferred,
       argIdxsAux (leftOf ms rsv reqInt) (packTarget ms rsv reqInt []) 0 [],
       -1, packTarget ms rsv reqInt []⟩ := rfl
  rw [hinit, populateLoop_packing ms rsv reqInt hpol numaNodes [] (-1)]
  simp only [List.nil_append]
  exact markPreferredAux_argIdxs _ _ _ 0

theorem populate_eq_spreading {policy : String} (hpol : (policy == policyPacking) = false)
    (ms : NUMANodeMap) (rsv : CPUSet) (reqInt : ℕ) (numaNodes : List ℕ) :
    populateHintsByPreferPolicy rsv reqInt policy ms numaNodes [] =
      (emittedNodes ms rsv reqInt numaNodes).map
        (fun i => ⟨[i], decide (leftOf ms rsv reqInt i =
          spreadTarget ms rsv reqInt (emittedNodes ms rsv reqInt numaNodes))⟩) := by
  simp only [populateHintsByPreferPolicy]
  have hinit : (⟨[], [], -1, goMaxInt⟩ : PopulateAcc) =
      ⟨([] : List ℕ).map mkUnpreferred,
       argIdxsAux (leftOf ms rsv reqInt) (spreadTarget ms rsv reqInt []) 0 [],
       spreadTarget ms rsv reqInt [], goMaxInt⟩ := rfl
  rw [hinit, populateLoop_spreading ms rsv reqInt hpol numaNodes [] goMaxInt]
  simp only [List.nil_append]
  exact markPreferredAux_argIdxs _ _ _ 0

theorem populate_mem_shape (policy : String) (ms : NUMANodeMap) (rsv : CPUSet)
    (reqInt : ℕ) (numaNodes : List ℕ) :
    ∀ h ∈ populateHintsByPreferPolicy rsv reqInt policy ms numaNodes [],
      ∃ i, i ∈ emittedNodes ms rsv reqInt numaNodes ∧ h.nodes = [i] := by
  intro h hh
  cases hpol : policy == policyPacking with
  | true =>
    rw [populate_eq_packing hpol] at hh
    rcases List.mem_map.mp hh with ⟨i, hi, rfl⟩
    exact ⟨i, hi, rfl⟩
  | false =>
    rw [populate_eq_spreading hpol] at hh
    rcases List.mem_map.mp hh with ⟨i, hi, rfl⟩
    exact ⟨i, hi, rfl⟩

theorem emittedNodes_capacity {ms : NUMANodeMap} {rsv : CPUSet} {reqInt : ℕ}
    {numaNodes : List ℕ} {i : ℕ} (hi : i ∈ emittedNodes ms rsv reqInt numaNodes) :
    reqInt ≤ availableQuantityAt ms rsv i := by
  have := List.of_mem_filter hi
  exact of_decide_eq_true this

theorem specAvailableUnion_single (ms : NUMANodeMap) (rsv : CPUSet) (i : ℕ) :
    specAvailableUnion ms rsv [i] = availableSetAt ms rsv i := by
  simp [specAvailableUnion]

/-! ### Lemmas about the shared-cores calculator -/

theorem calcShared_ok_nondyn {reqInt : ℕ} {topo : CPUTopology} {rsv : CPUSet}
    {policy : String} {θ : ℚ} {pe : PodEntries} {ms : NUMANodeMap} {ann : Ann}
    {c : CPUHints}
    (hdyn : (policy == policyDynamicPacking) = false)
    (h : calculateHintsForNUMABindingSharedCores reqInt topo rsv policy θ pe ms ann =
      .ok c) :
    ∃ pol cand, c = some (populateHintsByPreferPolicy rsv reqInt pol ms cand []) := by
  simp only [calculateHintsForNUMABindingSharedCores] at h
  split at h
  · exact absurd h (by simp)
  · split at h
    · exact absurd h (by simp)
    · split at h
      · injection h with h
        exact ⟨policy, _, h.symm⟩
      · rw [hdyn] at h
        simp only [Bool.false_eq_true, if_false] at h
        injection h with h
        exact ⟨policySpreading, _, h.symm⟩

theorem calcShared_ok_ps {reqInt : ℕ} {topo : CPUTopology} {rsv : CPUSet}
    {policy : String} {θ : ℚ} {pe : PodEntries} {ms : NUMANodeMap} {ann : Ann}
    {c : CPUHints}
    (hps : (policy == policyPacking || policy == policySpreading) = true)
    (h : calculateHintsForNUMABindingSharedCores reqInt topo rsv policy θ pe ms ann =
      .ok c) :
    c = some (populateHintsByPreferPolicy rsv reqInt policy ms
      (filterNUMANodesByNonBindingSharedRequestedQuantity rsv
        (getNonBindingSharedRequestedQuantity pe)
        ((ms.getFilteredAvailableCPUSet rsv).card) ms.getFilteredNUMASet ms
        (ms.getFilteredNUMASetWithAnn ann)) []) := by
  simp only [calculateHintsForNUMABindingSharedCores] at h
  split at h
  · exact absurd h (by simp)
  · split at h
    · exact absurd h (by simp)
    · injection h with h
      exact h.symm

theorem calcShared_ok_dynamic {reqInt : ℕ} {topo : CPUTopology} {rsv : CPUSet}
    {θ : ℚ} {pe : PodEntries} {ms : NUMANodeMap} {ann : Ann} {c : CPUHints}
    (h : calculateHintsForNUMABindingSharedCores reqInt topo rsv
      policyDynamicPacking θ pe ms ann = .ok c) :
    (0 < (filterNUMANodesByHintPreferLowThreshold rsv θ ms
        (filterNUMANodesByNonBindingSharedRequestedQuantity rsv
          (getNonBindingSharedRequestedQuantity pe)
          ((ms.getFilteredAvailableCPUSet rsv).card) ms.getFilteredNUMASet ms
          (ms.getFilteredNUMASetWithAnn ann))).1.length ∧
      c = some (populateNotPreferredHints
        (filterNUMANodesByHintPreferLowThreshold rsv θ ms
          (filterNUMANodesByNonBindingSharedRequestedQuantity rsv
            (getNonBindingSharedRequestedQuantity pe)
            ((ms.getFilteredAvailableCPUSet rsv).card) ms.getFilteredNUMASet ms
            (ms.getFilteredNUMASetWithAnn ann))).2
        (populateHintsByPreferPolicy rsv reqInt policyPacking ms
          (filterNUMANodesByHintPreferLowThreshold rsv θ ms
            (filterNUMANodesByNonBindingSharedRequestedQuantity rsv
              (getNonBindingSharedRequestedQuantity pe)
              ((ms.getFilteredAvailableCPUSet rsv).card) ms.getFilteredNUMASet ms
              (ms.getFilteredNUMASetWithAnn ann))).1 []))) ∨
    c = some (populateHintsByPreferPolicy rsv reqInt policySpreading ms
      (filterNUMANodesByNonBindingSharedRequestedQuantity rsv
        (getNonBindingSharedRequestedQuantity pe)
        ((ms.getFilteredAvailableCPUSet rsv).card) ms.getFilteredNUMASet ms
        (ms.getFilteredNUMASetWithAnn ann)) []) := by
  simp only [calculateHintsForNUMABindingSharedCores] at h
  split at h
  · exact absurd h (by simp)
  · split at h
    · exact absurd h (by simp)
    · rw [show (policyDynamicPacking == policyPacking ||
          policyDynamicPacking == policySpreading) = false from rfl] at h
      simp only [Bool.false_eq_true, if_false] at h
      rw [show (policyDynamicPacking == policyDynamicPacking) = true from rfl] at h
      simp only [if_true] at h
      split at h
      · rename_i hsplit
        injection h with h
        exact Or.inl ⟨hsplit, h.symm⟩
      · injection h with h
        exact Or.inr h.symm

theorem calcShared_ok_some {reqInt : ℕ} {topo : CPUTopology} {rsv : CPUSet}
    {policy : String} {θ : ℚ} {pe : PodEntries} {ms : NUMANodeMap} {ann : Ann}
    {c : CPUHints}
    (h : calculateHintsForNUMABindingSharedCores reqInt topo rsv policy θ pe ms ann =
      .ok c) :
    ∃ lh, c = some lh := by
  simp only [calculateHintsForNUMABindingSharedCores] at h
  split at h
  · exact absurd h (by simp)
  · split at h
    · exact absurd h (by simp)
    · split at h
      · injection h with h
        exact ⟨_, h.symm⟩
      · split at h
        · split at h
          · injection h with h
            exact ⟨_, h.symm⟩
          · injection h with h
            exact ⟨_, h.symm⟩
        · injection h with h
          exact ⟨_, h.symm⟩

theorem calculateHints_ok_some {reqInt : ℕ} {topo : CPUTopology} {rsv : CPUSet}
    {ms : NUMANodeMap} {ann : Ann} {c : CPUHints}
    (h : calculateHints reqInt topo rsv ms ann = .ok c) : ∃ lh, c = some lh := by
  obtain ⟨K, nps, _, _, hc⟩ := calculateHints_ok_shape h
  exact ⟨_, hc⟩

theorem filterNonBinding_mem (rsv : CPUSet) (q cq : ℕ) (u : Finset ℕ)
    (ms : NUMANodeMap) :
    ∀ (l : List ℕ) (i : ℕ),
      i ∈ filterNUMANodesByNonBindingSharedRequestedQuantity rsv q cq u ms l ↔
        i ∈ l ∧ (i ∈ u →
          (q : ℤ) ≤ (cq : ℤ) - (allocatableQuantityAt ms rsv i : ℤ)) := by
  intro l
  induction l with
  | nil =>
    intro i
    simp [filterNUMANodesByNonBindingSharedRequestedQuantity]
  | cons j rest ih =>
    intro i
    simp only [filterNUMANodesByNonBindingSharedRequestedQuantity]
    by_cases hju : j ∈ u
    · rw [if_pos hju]
      by_cases hcond : (q : ℤ) ≤ (cq : ℤ) - (allocatableQuantityAt ms rsv j : ℤ)
      · rw [if_pos hcond]
        constructor
        · intro hmem
          rcases List.mem_cons.mp hmem with rfl | hmem'
          · exact ⟨List.mem_cons_self _ _, fun _ => hcond⟩
          · rcases (ih i).mp hmem' with ⟨h1, h2⟩
            exact ⟨List.mem_cons_of_mem _ h1, h2⟩
        · rintro ⟨hmem, hcnd⟩
          rcases List.mem_cons.mp hmem with rfl | hmem'
          · exact List.mem_cons_self _ _
          · exact List.mem_cons_of_mem _ ((ih i).mpr ⟨hmem', hcnd⟩)
      · rw [if_neg hcond]
        constructor
        · intro hmem
          rcases (ih i).mp hmem with ⟨h1, h2⟩
          exact ⟨List.mem_cons_of_mem _ h1, h2⟩
        · rintro ⟨hmem, hcnd⟩
          rcases List.mem_cons.mp hmem with rfl | hmem'
          · exact absurd (hcnd hju) hcond
          · exact (ih i).mpr ⟨hmem', hcnd⟩
    · rw [if_neg hju]
      constructor
      · intro hmem
        rcases List.mem_cons.mp hmem with rfl | hmem'
        · refine ⟨List.mem_cons_self _ _, fun hiu => absurd hiu hju⟩
        · rcases (ih i).mp hmem' with ⟨h1, h2⟩
          exact ⟨List.mem_cons_of_mem _ h1, h2⟩
      · rintro ⟨hmem, hcnd⟩
        rcases List.mem_cons.mp hmem with rfl | hmem'
        · exact List.mem_cons_self _ _
        · exact List.mem_cons_of_mem _ ((ih i).mpr ⟨hmem', hcnd⟩)

/-- C4: in the anti-starvation pre-filter (invoked with `Q_unbound`,
`C_unbound` and the unbound NUMA set as computed by the shared calculator), a
candidate NUMA in the unbound set is admitted iff `C_unbound − allocatable(i)
≥ Q_unbound`; a candidate outside the unbound set is admitted
unconditionally. -/
theorem anti_starvation_filter_admission (rsv : CPUSet) (pe : PodEntries)
    (ms : NUMANodeMap) (numaNodes : List ℕ) (i : ℕ) :
    i ∈ filterNUMANodesByNonBindingSharedRequestedQuantity rsv
        (getNonBindingSharedRequestedQuantity pe)
        ((ms.getFilteredAvailableCPUSet rsv).card) ms.getFilteredNUMASet ms
        numaNodes ↔
      i ∈ numaNodes ∧ (i ∈ ms.getFilteredNUMASet →
        (getNonBindingSharedRequestedQuantity pe : ℤ) ≤
          ((ms.getFilteredAvailableCPUSet rsv).card : ℤ) -
            (allocatableQuantityAt ms rsv i : ℤ)) :=
  filterNonBinding_mem rsv (getNonBindingSharedRequestedQuantity pe)
    ((ms.getFilteredAvailableCPUSet rsv).card) ms.getFilteredNUMASet ms numaNodes i

/-- C1 counterexample: under `dynamic_packing` with threshold 1/2, a NUMA
with only 2 CPUs available is below the threshold, yet it is still emitted as
a (non-preferred) hint for a request of 4 CPUs — its availability is below
the request, violating the claimed capacity invariant. -/
theorem dynamicPacking_capacity_counterexample :
    calculateHintsForNUMABindingSharedCores 4 topoTen ∅ policyDynamicPacking
      (mkRat 1 2) [] msDynCx [] = .ok (some [⟨[1], true⟩, ⟨[0], false⟩]) ∧
    availableQuantityAt msDynCx ∅ 0 < 4 := by
  constructor
  · decide
  · decide

/-- C1 (amended): every hint emitted by the dedicated calculator, and every
hint emitted by the shared calculator under packing, spreading or an unknown
policy, covers the request with the union of its NUMAs' available CPUs;
under `dynamic_packing` this holds for every hint except the non-preferred
single-NUMA fallback hints appended for the below-threshold NUMA group,
which are emitted without a capacity check. -/
theorem hint_capacity_amended :
    (∀ (reqInt : ℕ) (topo : CPUTopology) (rsv : CPUSet) (ms : NUMANodeMap)
      (ann : Ann) (l : List TopologyHint),
      calculateHints reqInt topo rsv ms ann = .ok (some l) →
      ∀ h ∈ l, reqInt ≤ (specAvailableUnion ms rsv h.nodes).card) ∧
    (∀ (reqInt : ℕ) (topo : CPUTopology) (rsv : CPUSet) (policy : String)
      (θ : ℚ) (pe : PodEntries) (ms : NUMANodeMap) (ann : Ann)
      (l : List TopologyHint),
      (policy == policyDynamicPacking) = false →
      calculateHintsForNUMABindingSharedCores reqInt topo rsv policy θ pe ms ann =
        .ok (some l) →
      ∀ h ∈ l, reqInt ≤ (specAvailableUnion ms rsv h.nodes).card) ∧
    (∀ (reqInt : ℕ) (topo : CPUTopology) (rsv : CPUSet) (θ : ℚ)
      (pe : PodEntries) (ms : NUMANodeMap) (ann : Ann) (l : List TopologyHint),
      calculateHintsForNUMABindingSharedCores reqInt topo rsv
        policyDynamicPacking θ pe ms ann = .ok (some l) →
      ∀ h ∈ l, reqInt ≤ (specAvailableUnion ms rsv h.nodes).card ∨
        (h.preferred = false ∧ ∃ i, h.nodes = [i] ∧
          i ∈ (filterNUMANodesByHintPreferLowThreshold rsv θ ms
            (filterNUMANodesByNonBindingSharedRequestedQuantity rsv
              (getNonBindingSharedRequestedQuantity pe)
              ((ms.getFilteredAvailableCPUSet rsv).card) ms.getFilteredNUMASet ms
              (ms.getFilteredNUMASetWithAnn ann))).2)) := by
  have hpop : ∀ (reqInt : ℕ) (rsv : CPUSet) (pol : String) (ms : NUMANodeMap)
      (cand : List ℕ), ∀ h ∈ populateHintsByPreferPolicy rsv reqInt pol ms cand [],
      reqInt ≤ (specAvailableUnion ms rsv h.nodes).card := by
    intro reqInt rsv pol ms cand h hh
    rcases populate_mem_shape pol ms rsv reqInt cand h hh with ⟨i, hiE, hn⟩
    rw [hn, specAvailableUnion_single]
    exact emittedNodes_capacity hiE
  refine ⟨?_, ?_, ?_⟩
  · intro reqInt topo rsv ms ann l hok h hh
    obtain ⟨K, nps, _, _, hc⟩ := calculateHints_ok_shape hok
    injection hc with hc
    rw [hc] at hh
    obtain ⟨mask, _, hstep⟩ := List.mem_filterMap.mp hh
    obtain ⟨hn, _, ⟨u, hg, hcap⟩, _⟩ := maskStep_some hstep
    rw [hn, ← gather_eq_union hg]
    exact hcap
  · intro reqInt topo rsv policy θ pe ms ann l hdyn hok h hh
    obtain ⟨pol, cand, hc⟩ := calcShared_ok_nondyn hdyn hok
    injection hc with hc
    rw [hc] at hh
    exact hpop reqInt rsv pol ms cand h hh
  · intro reqInt topo rsv θ pe ms ann l hok h hh
    rcases calcShared_ok_dynamic hok with ⟨hpos, hc⟩ | hc
    · injection hc with hc
      rw [hc] at hh
      simp only [populateNotPreferredHints] at hh
      rcases List.mem_append.mp hh with hleft | hright
      · exact Or.inl (hpop _ _ _ _ _ h hleft)
      · rcases List.mem_map.mp hright with ⟨i, hi, rfl⟩
        exact Or.inr ⟨rfl, i, rfl, hi⟩
    · injection hc with hc
      rw [hc] at hh
      exact Or.inl (hpop _ _ _ _ _ h hh)

/-- Witness for C1 (amended): the hint `{0, 1}` emitted for the concrete
three-CPU dedicated request covers the request with its available union. -/
theorem hint_capacity_amended_witness :
    3 ≤ (specAvailableUnion msTwoEmpty rsvTwo [0, 1]).card :=
  hint_capacity_amended.1 3 topoTwo rsvTwo msTwoEmpty annBindExcl
    [⟨[0, 1], false⟩] rfl ⟨[0, 1], false⟩ (by simp)

/-- C5: in the shared calculator, under packing the preferred hints are
exactly the emitted NUMAs minimizing `available(i) − R` (all ties
preferred); under spreading exactly those maximizing it; and an unrecognized
policy string yields exactly the spreading result. -/
theorem shared_prefer_policy_argopt :
    (∀ (reqInt : ℕ) (topo : CPUTopology) (rsv : CPUSet) (θ : ℚ)
      (pe : PodEntries) (ms : NUMANodeMap) (ann : Ann) (l : List TopologyHint),
      calculateHintsForNUMABindingSharedCores reqInt topo rsv policyPacking θ
        pe ms ann = .ok (some l) →
      (∀ h ∈ l, ∀ i ∈ h.nodes, (availableQuantityAt ms rsv i : ℤ) ≤ goMaxInt) →
      ∀ h ∈ l, ∃ i, h.nodes = [i] ∧
        (h.preferred = true ↔ ∀ h' ∈ l, ∀ j, TopologyHint.nodes h' = [j] →
          leftOf ms rsv reqInt i ≤ leftOf ms rsv reqInt j)) ∧
    (∀ (reqInt : ℕ) (topo : CPUTopology) (rsv : CPUSet) (θ : ℚ)
      (pe : PodEntries) (ms : NUMANodeMap) (ann : Ann) (l : List TopologyHint),
      calculateHintsForNUMABindingSharedCores reqInt topo rsv policySpreading θ
        pe ms ann = .ok (some l) →
      ∀ h ∈ l, ∃ i, h.nodes = [i] ∧
        (h.preferred = true ↔ ∀ h' ∈ l, ∀ j, TopologyHint.nodes h' = [j] →
          leftOf ms rsv reqInt j ≤ leftOf ms rsv reqInt i)) ∧
    (∀ (reqInt : ℕ) (topo : CPUTopology) (rsv : CPUSet) (θ : ℚ)
      (pe : PodEntries) (ms : NUMANodeMap) (ann : Ann) (policy : String),
      (policy == policyPacking) = false → (policy == policySpreading) = false →
      (policy == policyDynamicPacking) = false →
      calculateHintsForNUMABindingSharedCores reqInt topo rsv policy θ pe ms ann =
        calculateHintsForNUMABindingSharedCores reqInt topo rsv policySpreading θ
          pe ms ann) := by
  refine ⟨?_, ?_, ?_⟩
  · intro reqInt topo rsv θ pe ms ann l hok hb h hh
    have hc := calcShared_ok_ps (by rfl) hok
    injection hc with hc
    subst hc
    rw [populate_eq_packing (show (policyPacking == policyPacking) = true from rfl)]
      at hh hb ⊢
    rcases List.mem_map.mp hh with ⟨i, hiE, rfl⟩
    refine ⟨i, rfl, ?_, ?_⟩
    · intro hpref h' hh' j hj
      have hEq := of_decide_eq_true hpref
      rcases List.mem_map.mp hh' with ⟨j0, hj0E, rfl⟩
      have hj' : [j0] = [j] := hj
      injection hj' with hj0eq
      subst hj0eq
      rw [hEq]
      exact packTarget_le hj0E
    · intro hall
      apply decide_eq_true
      refine le_antisymm ?_ (packTarget_le hiE)
      have hbound : leftOf ms rsv reqInt i ≤ goMaxInt := by
        have hbi := hb _ hh i (by simp)
        have hsub : leftOf ms rsv reqInt i ≤ (availableQuantityAt ms rsv i : ℤ) := by
          simp only [leftOf]
          omega
        exact le_trans hsub hbi
      refine le_foldr_min _ _ _ hbound ?_
      intro y hy
      rcases List.mem_map.mp hy with ⟨j, hjE, rfl⟩
      exact hall _ (List.mem_map_of_mem _ hjE) j rfl
  · intro reqInt topo rsv θ pe ms ann l hok h hh
    have hc := calcShared_ok_ps (by rfl) hok
    injection hc with hc
    subst hc
    rw [populate_eq_spreading (show (policySpreading == policyPacking) = false from rfl)]
      at hh ⊢
    rcases List.mem_map.mp hh with ⟨i, hiE, rfl⟩
    refine ⟨i, rfl, ?_, ?_⟩
    · intro hpref h' hh' j hj
      have hEq := of_decide_eq_true hpref
      rcases List.mem_map.mp hh' with ⟨j0, hj0E, rfl⟩
      have hj' : [j0] = [j] := hj
      injection hj' with hj0eq
      subst hj0eq
      rw [hEq]
      exact le_spreadTarget hj0E
    · intro hall
      apply decide_eq_true
      refine le_antisymm (le_spreadTarget hiE) ?_
      have hbound : (-1 : ℤ) ≤ leftOf ms rsv reqInt i := by
        have hcapi := emittedNodes_capacity hiE
        simp only [leftOf]
        omega
      refine foldr_max_le _ _ _ hbound ?_
      intro y hy
      rcases List.mem_map.mp hy with ⟨j, hjE, rfl⟩
      exact hall _ (List.mem_map_of_mem _ hjE) j rfl
  · intro reqInt topo rsv θ pe ms ann policy h1 h2 h3
    simp only [calculateHintsForNUMABindingSharedCores]
    cases hK : getNUMANodesCountToFitCPUReq reqInt topo with
    | error e => rfl
    | ok K =>
      by_cases h1K : 1 < K
      · simp [h1K]
      · simp only [h1K, if_false]
        rw [show (policy == policyPacking || policy == policySpreading) = false by
              rw [h1, h2]; rfl,
            show (policySpreading == policyPacking ||
              policySpreading == policySpreading) = true from rfl]
        simp only [Bool.false_eq_true, if_false, if_true, h3]

/-- Witness for C5 at availabilities 5, 10, 4, 20 and a request of 4 under
packing: the emitted hint `{2}` (leftover 0) is preferred iff its leftover is
minimal among all emitted single-NUMA hints. -/
theorem shared_prefer_policy_argopt_witness :
    ∃ i, (⟨[2], true⟩ : TopologyHint).nodes = [i] ∧
      ((⟨[2], true⟩ : TopologyHint).preferred = true ↔
        ∀ h' ∈ [(⟨[0], false⟩ : TopologyHint), ⟨[1], false⟩, ⟨[2], true⟩,
            ⟨[3], false⟩],
          ∀ j, TopologyHint.nodes h' = [j] →
            leftOf msFour ∅ 4 i ≤ leftOf msFour ∅ 4 j) :=
  shared_prefer_policy_argopt.1 4 topoFour ∅ (mkRat 1 2) [] msFour []
    [⟨[0], false⟩, ⟨[1], false⟩, ⟨[2], true⟩, ⟨[3], false⟩]
    (by decide) (by decide) ⟨[2], true⟩ (by decide)

/-! ### Claim theorems on the hint handlers -/

/-- C8: on both binding paths, a sidecar request is answered with a nil hint
list under the CPU key (no NUMA preference), regardless of quantity and
machine state, and without touching the registry. -/
theorem sidecar_no_preference (env : PolicyEnv) (ms0 : NUMANodeMap)
    (pe0 : PodEntries) (req : ResourceRequest) (hS : req.isSidecar = true) :
    dedicatedCoresWithNUMABindingHintHandler env ms0 pe0 req =
      .ok (packResourceHintsResponse none, pe0) ∧
    sharedCoresWithNUMABindingHintHandler env ms0 pe0 req =
      .ok (packResourceHintsResponse none, pe0) := by
  constructor
  · simp [dedicatedCoresWithNUMABindingHintHandler, hS]
  · simp [sharedCoresWithNUMABindingHintHandler, hS]

/-- Witness for C8: the concrete sidecar request is answered with a nil CPU
hint list by the dedicated-path handler. -/
theorem sidecar_no_preference_witness :
    dedicatedCoresWithNUMABindingHintHandler envRegenOk [] [] reqSidecar =
      .ok (packResourceHintsResponse none, []) :=
  (sidecar_no_preference envRegenOk [] [] reqSidecar rfl).1

theorem find?_filter_ne (cn : String) (ces : ContainerEntries) :
    (ces.filter (fun c => ¬(c.1 = cn))).find? (fun c => c.1 = cn) = none := by
  rw [List.find?_eq_none]
  intro x hx
  have hmem := List.of_mem_filter hx
  simp only [decide_not, Bool.not_eq_true', decide_eq_false_iff_not] at hmem
  simpa using hmem

theorem deleteEntry_cons (e : String × ContainerEntries) (pe : PodEntries)
    (uid cn : String) :
    PodEntries.deleteEntry (e :: pe) uid cn =
      if e.1 = uid then
        (if (e.2.filter (fun c => ¬(c.1 = cn))).isEmpty then
          PodEntries.deleteEntry pe uid cn
         else (e.1, e.2.filter (fun c => ¬(c.1 = cn))) ::
           PodEntries.deleteEntry pe uid cn)
      else e :: PodEntries.deleteEntry pe uid cn := rfl

theorem deleteEntry_getAllocationInfo (uid cn : String) :
    ∀ pe : PodEntries,
      (pe.deleteEntry uid cn).getAllocationInfo uid cn = none := by
  intro pe
  induction pe with
  | nil => rfl
  | cons e pe ih =>
    rw [deleteEntry_cons]
    by_cases he : e.1 = uid
    · rw [if_pos he]
      by_cases hemp : (e.2.filter (fun c => ¬(c.1 = cn))).isEmpty
      · rw [if_pos hemp]
        exact ih
      · rw [if_neg hemp]
        simp only [PodEntries.getAllocationInfo]
        rw [List.find?_cons_of_pos _ (by simp [he])]
        simp [find?_filter_ne]
    · rw [if_neg he]
      simp only [PodEntries.getAllocationInfo] at ih ⊢
      rw [List.find?_cons_of_neg _ (by simp [he])]
      exact ih

theorem deleteEntry_pod_pruned (uid cn : String) :
    ∀ pe : PodEntries, ∀ p ∈ pe.deleteEntry uid cn, p.1 = uid →
      p.2 ≠ [] ∧ ∀ ce ∈ p.2, ¬(ce.1 = cn) := by
  intro pe
  induction pe with
  | nil =>
    intro p hp
    exact absurd hp (by simp [PodEntries.deleteEntry])
  | cons e pe ih =>
    intro p hp hpu
    rw [deleteEntry_cons] at hp
    by_cases he : e.1 = uid
    · rw [if_pos he] at hp
      by_cases hemp : (e.2.filter (fun c => ¬(c.1 = cn))).isEmpty
      · rw [if_pos hemp] at hp
        exact ih p hp hpu
      · rw [if_neg hemp] at hp
        rcases List.mem_cons.mp hp with rfl | hp'
        · refine ⟨?_, ?_⟩
          · intro hnil
            rw [List.isEmpty_iff] at hemp
            exact hemp hnil
          · intro ce hce
            have hm := List.of_mem_filter hce
            simp only [decide_not, Bool.not_eq_true', decide_eq_false_iff_not] at hm
            exact hm
        · exact ih p hp' hpu
    · rw [if_neg he] at hp
      rcases List.mem_cons.mp hp with rfl | hp'
      · exact absurd hpu he
      · exact ih p hp' hpu

/-- C9: on both binding paths, a successful regeneration is returned verbatim
with the registry snapshot untouched; a failed regeneration deletes the
(pod, container) entry — pruning the pod if it becomes empty — and the
machine state used for the subsequent calculation is regenerated from the
post-deletion registry. -/
theorem regeneration_frame_effects (env : PolicyEnv) (ms0 : NUMANodeMap)
    (pe0 : PodEntries) (req : ResourceRequest) (q : ℕ) (ai : AllocationInfo)
    (hS : req.isSidecar = false) (hQ : req.quantity = .ok q)
    (hA : pe0.getAllocationInfo req.podUid req.containerName = some ai) :
    (∀ hl, env.regenerateHints ai q = some hl →
      dedicatedCoresWithNUMABindingHintHandler env ms0 pe0 req =
        .ok (packResourceHintsResponse (some hl), pe0) ∧
      sharedCoresWithNUMABindingHintHandler env ms0 pe0 req =
        .ok (packResourceHintsResponse (some hl), pe0)) ∧
    (env.regenerateHints ai q = none →
      (pe0.deleteEntry req.podUid req.containerName).getAllocationInfo
        req.podUid req.containerName = none ∧
      (∀ p ∈ pe0.deleteEntry req.podUid req.containerName, p.1 = req.podUid →
        p.2 ≠ [] ∧ ∀ ce ∈ p.2, ¬(ce.1 = req.containerName)) ∧
      ∀ ms1, env.generateMachineStateFromPodEntries env.topo
          (pe0.deleteEntry req.podUid req.containerName) = .ok ms1 →
        (env.getHintsFromExtraStateFile req.podName ms1.getFilteredNUMASet = none →
          ∀ c, calculateHints q env.topo env.reserved ms1 req.annot = .ok c →
            dedicatedCoresWithNUMABindingHintHandler env ms0 pe0 req =
              .ok (packResourceHintsResponse c,
                pe0.deleteEntry req.podUid req.containerName)) ∧
        (∀ c, calculateHintsForNUMABindingSharedCores q env.topo env.reserved
            env.preferPolicy env.threshold
            (pe0.deleteEntry req.podUid req.containerName) ms1 req.annot = .ok c →
          sharedCoresWithNUMABindingHintHandler env ms0 pe0 req =
            .ok (packResourceHintsResponse c,
              pe0.deleteEntry req.podUid req.containerName))) := by
  constructor
  · intro hl hr
    constructor
    · simp [dedicatedCoresWithNUMABindingHintHandler, hS, hQ, hA, hr]
    · simp [sharedCoresWithNUMABindingHintHandler, hS, hQ, hA, hr]
  · intro hr
    refine ⟨deleteEntry_getAllocationInfo _ _ pe0,
      deleteEntry_pod_pruned _ _ pe0, ?_⟩
    intro ms1 hgen
    constructor
    · intro hextra c hcalc
      simp [dedicatedCoresWithNUMABindingHintHandler, hS, hQ, hA, hr, hgen,
        hextra, hcalc]
    · intro c hcalc
      simp [sharedCoresWithNUMABindingHintHandler, hS, hQ, hA, hr, hgen, hcalc]

/-- Witness for C9: with a registry holding the matching entry and a
regeneration that succeeds with a fixed hint list, the dedicated handler
returns exactly those hints and leaves the registry snapshot unchanged. -/
theorem regeneration_frame_effects_witness :
    dedicatedCoresWithNUMABindingHintHandler envRegenOk [] peOne reqMain =
      .ok (packResourceHintsResponse (some [⟨[0], true⟩]), peOne) :=
  ((regeneration_frame_effects envRegenOk [] peOne reqMain 2
      ⟨"dedicated", true, 2, {0, 1}⟩ rfl rfl rfl).1 [⟨[0], true⟩] rfl).1

theorem dedicated_ok_none_sidecar {env : PolicyEnv} {ms0 : NUMANodeMap}
    {pe0 : PodEntries} {req : ResourceRequest} {resp : Response}
    {peOut : PodEntries}
    (h : dedicatedCoresWithNUMABindingHintHandler env ms0 pe0 req =
      .ok (resp, peOut))
    (hn : resp.cpuHints = none) : req.isSidecar = true := by
  by_cases hS : req.isSidecar = true
  · exact hS
  · exfalso
    rw [Bool.not_eq_true] at hS
    simp only [dedicatedCoresWithNUMABindingHintHandler, hS, Bool.false_eq_true,
      if_false] at h
    split at h
    · exact absurd h (by simp)
    · split at h
      · exact absurd h (by simp)
      · split at h
        · rename_i hl hhl
          injection h with h
          rw [Prod.mk.injEq] at h
          rw [← h.1] at hn
          exact absurd hn (by simp [packResourceHintsResponse])
        · split at h
          · exact absurd h (by simp)
          · rename_i c hcalc
            injection h with h
            rw [Prod.mk.injEq] at h
            rcases calculateHints_ok_some hcalc with ⟨lh, rfl⟩
            rw [← h.1] at hn
            exact absurd hn (by simp [packResourceHintsResponse])

theorem shared_ok_none_sidecar {env : PolicyEnv} {ms0 : NUMANodeMap}
    {pe0 : PodEntries} {req : ResourceRequest} {resp : Response}
    {peOut : PodEntries}
    (h : sharedCoresWithNUMABindingHintHandler env ms0 pe0 req =
      .ok (resp, peOut))
    (hn : resp.cpuHints = none) : req.isSidecar = true := by
  by_cases hS : req.isSidecar = true
  · exact hS
  · exfalso
    rw [Bool.not_eq_true] at hS
    simp only [sharedCoresWithNUMABindingHintHandler, hS, Bool.false_eq_true,
      if_false] at h
    split at h
    · exact absurd h (by simp)
    · split at h
      · exact absurd h (by simp)
      · split at h
        · rename_i hl hhl
          injection h with h
          rw [Prod.mk.injEq] at h
          rw [← h.1] at hn
          exact absurd hn (by simp [packResourceHintsResponse])
        · split at h
          · exact absurd h (by simp)
          · rename_i c hcalc
            injection h with h
            rw [Prod.mk.injEq] at h
            rcases calcShared_ok_some hcalc with ⟨lh, rfl⟩
            rw [← h.1] at hn
            exact absurd hn (by simp [packResourceHintsResponse])

/-- C10: both calculators bind the CPU key to a non-nil (possibly empty)
list on every successful run — over an empty machine state the dedicated
calculator returns an empty (not nil) list — while a nil list under the CPU
key arises only from the sidecar shortcut on the binding handlers and from
the shared-without-binding shortcut, so the interface distinguishes "no
satisfiable placement" from "no preference". -/
theorem cpu_key_non_nil_interface :
    (∀ (reqInt : ℕ) (topo : CPUTopology) (rsv : CPUSet) (ms : NUMANodeMap)
      (ann : Ann) (c : CPUHints), calculateHints reqInt topo rsv ms ann = .ok c →
      ∃ lh, c = some lh) ∧
    (∀ (reqInt : ℕ) (topo : CPUTopology) (rsv : CPUSet) (policy : String)
      (θ : ℚ) (pe : PodEntries) (ms : NUMANodeMap) (ann : Ann) (c : CPUHints),
      calculateHintsForNUMABindingSharedCores reqInt topo rsv policy θ pe ms ann =
        .ok c → ∃ lh, c = some lh) ∧
    (∀ (reqInt : ℕ) (topo : CPUTopology) (rsv : CPUSet) (ann : Ann) (K nps : ℕ),
      getNUMANodesCountToFitCPUReq reqInt topo = .ok K →
      (annIndicateNUMABinding ann && !annIndicateNUMAExclusive ann &&
        decide (1 < K)) = false →
      topo.numasPerSocket = .ok nps →
      calculateHints reqInt topo rsv [] ann = .ok (some [])) ∧
    (∀ (env : PolicyEnv) (ms0 : NUMANodeMap) (pe0 : PodEntries)
      (req : ResourceRequest) (resp : Response) (peOut : PodEntries),
      dedicatedCoresWithNUMABindingHintHandler env ms0 pe0 req =
        .ok (resp, peOut) → resp.cpuHints = none → req.isSidecar = true) ∧
    (∀ (env : PolicyEnv) (ms0 : NUMANodeMap) (pe0 : PodEntries)
      (req : ResourceRequest) (resp : Response) (peOut : PodEntries),
      sharedCoresWithNUMABindingHintHandler env ms0 pe0 req =
        .ok (resp, peOut) → resp.cpuHints = none → req.isSidecar = true) ∧
    (∀ (env : PolicyEnv) (ms0 : NUMANodeMap) (pe0 : PodEntries)
      (req : ResourceRequest) (resp : Response) (peOut : PodEntries),
      sharedCoresHintHandler env ms0 pe0 req = .ok (resp, peOut) →
      resp.cpuHints = none →
      annIndicateNUMABinding req.annot = false ∨ req.isSidecar = true) := by
  refine ⟨?_, ?_, ?_, ?_, ?_, ?_⟩
  · intro reqInt topo rsv ms ann c h
    exact calculateHints_ok_some h
  · intro reqInt topo rsv policy θ pe ms ann c h
    exact calcShared_ok_some h
  · intro reqInt topo rsv ann K nps hK hcond hnps
    simp [calculateHints, hK, hcond, hnps]
    intro a ha
    rw [show iterateBitMasks (sortAsc []) = [] from rfl] at ha
    exact absurd ha (by simp)
  · intro env ms0 pe0 req resp peOut h hn
    exact dedicated_ok_none_sidecar h hn
  · intro env ms0 pe0 req resp peOut h hn
    exact shared_ok_none_sidecar h hn
  · intro env ms0 pe0 req resp peOut h hn
    by_cases hb : annIndicateNUMABinding req.annot
    · simp only [sharedCoresHintHandler, hb, Bool.not_true, Bool.false_eq_true,
        if_false] at h
      exact Or.inr (shared_ok_none_sidecar h hn)
    · exact Or.inl (Bool.not_eq_true _ ▸ hb)

/-- Witness for C10: over the empty machine state (with a one-CPU request on
the two-NUMA topology) the dedicated calculator succeeds with the empty — but
not nil — hint list under the CPU key. -/
theorem cpu_key_non_nil_interface_witness :
    calculateHints 1 topoTwo ∅ [] [] = .ok (some []) :=
  cpu_key_non_nil_interface.2.2.1 1 topoTwo ∅ [] 1 2 rfl rfl rfl

end KatalystHints
